import Mathlib

/-!
Shallow embedding of the string-similarity engine of the repository
(`string_matching.py`, `src/string_algorithms/string_sequence_matcher.py`,
`src/string_algorithms/scripts/string_subsequence_matching.py`).

All three modules call `difflib.SequenceMatcher(lambda x: False, source, target)`
from the Python standard library, so the matcher itself is embedded first,
following CPython's `difflib.py`:

* the junk predicate is `lambda x: False`, hence the junk set `bjunk` is empty:
  the two junk-extension `while` loops of `find_longest_match`, whose guards
  require `isbjunk(...)` to be true, never fire and are not reproduced;
* `autojunk` is left at its default `True`, so for `len(b) >= 200` the "popular"
  characters (more than `len(b) // 100 + 1` occurrences) are purged from `b2j`;
* `get_matching_blocks` of the source maintains an explicit LIFO queue and sorts
  the collected blocks at the end; the blocks produced are exactly those of the
  standard in-order recursion (the ranges explored are pairwise disjoint and
  ordered), which is the form embedded here (`matchingBlocksRec`).

Strings are embedded as `List Char`, Python's `s[lo:hi]` as `pySlice`.
-/

namespace Difflib

/-- `b2j` of `SequenceMatcher.__chain_b`: the positions of character `c` in `b`,
in increasing order, after the `autojunk` purge of popular characters (no junk
purge: the junk set is empty for `lambda x: False`). -/
def b2j (b : List Char) (c : Char) : List Nat :=
  let idxs := ((b.enum.filter (fun p => p.2 == c)).map Prod.fst)
  if 200 ≤ b.length ∧ b.length / 100 + 1 < idxs.length then [] else idxs

/-- Inner loop of `find_longest_match`: scan the candidate positions `js` of
`a[i]` in `b` (already restricted to `[blo, bhi)` — the `continue`/`break` of
the source on the increasing list), building the new `j2len` table and updating
the best block. `j2len.get(j-1, 0)` is 0 when `j = 0` (key `-1` is absent). -/
def flmInner (i : Nat) : List Nat → List (Nat × Nat) → List (Nat × Nat) →
    Nat × Nat × Nat → (List (Nat × Nat) × (Nat × Nat × Nat))
  | [], _, newj2len, best => (newj2len, best)
  | j :: js, j2lenOld, newj2len, best =>
    let k := (if j = 0 then 0 else (j2lenOld.lookup (j - 1)).getD 0) + 1
    let best' := if best.2.2 < k then (i + 1 - k, j + 1 - k, k) else best
    flmInner i js j2lenOld ((j, k) :: newj2len) best'

/-- Outer loop of `find_longest_match` over `for i in range(alo, ahi)`. -/
def flmOuter (a b : List Char) (blo bhi : Nat) :
    List Nat → List (Nat × Nat) → Nat × Nat × Nat → Nat × Nat × Nat
  | [], _, best => best
  | i :: is, j2len, best =>
    let js := (b2j b (a.getD i default)).filter (fun j => blo ≤ j ∧ j < bhi)
    let r := flmInner i js j2len [] best
    flmOuter a b blo bhi is r.1 r.2

/-- `while besti > alo and bestj > blo and a[besti-1] == b[bestj-1]` backward
extension of the best block (with the vacuous `not isbjunk(...)` test dropped:
the junk set is empty).  Structural recursion on `besti`; when `besti = 0` the
loop guard `besti > alo` is false and the loop stops, as in the source. -/
def extendBack (a b : List Char) (alo blo : Nat) : Nat → Nat → Nat → Nat × Nat × Nat
  | 0, bestj, bestsize => (0, bestj, bestsize)
  | besti + 1, bestj, bestsize =>
    if alo < besti + 1 ∧ blo < bestj ∧ a.getD besti default = b.getD (bestj - 1) default then
      extendBack a b alo blo besti (bestj - 1) (bestsize + 1)
    else (besti + 1, bestj, bestsize)

/-- `while besti+bestsize < ahi and bestj+bestsize < bhi and
a[besti+bestsize] == b[bestj+bestsize]: bestsize += 1` forward extension.
The loop adds 1 to `bestsize` while `besti + bestsize < ahi`, so it runs fewer
than `ahi` further iterations; it is driven here by a gas counter that the
caller sets to `ahi`, which therefore never runs out before the guard fails. -/
def extendFwd (a b : List Char) (ahi bhi : Nat) (besti bestj : Nat) : Nat → Nat → Nat
  | 0, bestsize => bestsize
  | gas + 1, bestsize =>
    if besti + bestsize < ahi ∧ bestj + bestsize < bhi ∧
        a.getD (besti + bestsize) default = b.getD (bestj + bestsize) default then
      extendFwd a b ahi bhi besti bestj gas (bestsize + 1)
    else bestsize

/-- `SequenceMatcher.find_longest_match` on `a[alo:ahi]` and `b[blo:bhi]`. -/
def find_longest_match (a b : List Char) (alo ahi blo bhi : Nat) : Nat × Nat × Nat :=
  let best := flmOuter a b blo bhi (List.range' alo (ahi - alo)) [] (alo, blo, 0)
  let e := extendBack a b alo blo best.1 best.2.1 best.2.2
  (e.1, e.2.1, extendFwd a b ahi bhi e.1 e.2.1 ahi e.2.2)

/-- Invariant on the `j2len` association table of the DP: every recorded match
length is at least 1, ends inside `[blo, bhi)` on the `b` side, and is bounded
by `bnd` (the number of `a`-indices processed so far). -/
def J2LInv (blo bhi bnd : Nat) (l : List (Nat × Nat)) : Prop :=
  ∀ p ∈ l, 1 ≤ p.2 ∧ blo + p.2 ≤ p.1 + 1 ∧ p.1 < bhi ∧ p.2 ≤ bnd

/-- Invariant on the best block `(besti, bestj, bestsize)`: it fits inside the
search window, and a best of size 0 still sits at `(alo, blo)`. -/
def BestInv (alo ahi blo bhi : Nat) (t : Nat × Nat × Nat) : Prop :=
  alo ≤ t.1 ∧ blo ≤ t.2.1 ∧ (t.2.2 ≠ 0 → t.1 + t.2.2 ≤ ahi ∧ t.2.1 + t.2.2 ≤ bhi) ∧
    (t.2.2 = 0 → t.1 = alo ∧ t.2.1 = blo)

theorem lookup_mem {β : Type} {l : List (Nat × β)} {k : Nat} {v : β}
    (h : l.lookup k = some v) : (k, v) ∈ l := by
  induction l with
  | nil => simp [List.lookup] at h
  | cons p l ih =>
    cases p with
    | mk a w =>
      by_cases hk : k = a
      · subst hk
        simp only [List.lookup, beq_self_eq_true, Option.some.injEq] at h
        subst h
        exact List.mem_cons_self _ _
      · have hb : (k == a) = false := by simpa using hk
        simp only [List.lookup, hb] at h
        exact List.mem_cons_of_mem _ (ih h)

theorem flmInner_inv {blo bhi alo ahi : Nat} {i bnd : Nat}
    (hi : i < ahi) (hbnd : alo + bnd ≤ i) :
    ∀ (js : List Nat) (j2lenOld newj2len : List (Nat × Nat)) (best : Nat × Nat × Nat),
    (∀ j ∈ js, blo ≤ j ∧ j < bhi) →
    J2LInv blo bhi bnd j2lenOld → J2LInv blo bhi (bnd + 1) newj2len →
    BestInv alo ahi blo bhi best →
    J2LInv blo bhi (bnd + 1) (flmInner i js j2lenOld newj2len best).1 ∧
      BestInv alo ahi blo bhi (flmInner i js j2lenOld newj2len best).2 := by
  intro js
  induction js with
  | nil => intro _ _ _ _ hold hnew hbest; exact ⟨hnew, hbest⟩
  | cons j js ih =>
    intro j2lenOld newj2len best hjs hold hnew hbest
    rw [flmInner]
    have hj := hjs j (by simp)
    set kv := (if j = 0 then 0 else (j2lenOld.lookup (j - 1)).getD 0) + 1 with hkv
    have hk : 1 ≤ kv ∧ blo + kv ≤ j + 1 ∧ kv ≤ bnd + 1 := by
      rw [hkv]
      by_cases hz : j = 0
      · simp only [hz, if_pos]
        omega
      · simp only [hz, if_neg, if_false]
        cases hl : j2lenOld.lookup (j - 1) with
        | none => simp; omega
        | some v =>
          have hv := hold _ (lookup_mem hl)
          simp only [Option.getD_some]
          simp only at hv
          omega
    refine ih _ _ _ (fun x hx => hjs x (by simp [hx])) hold ?_ ?_
    · intro p hp
      rcases List.mem_cons.1 hp with h | h
      · subst h; exact ⟨hk.1, hk.2.1, hj.2, hk.2.2⟩
      · exact hnew p h
    · simp only [BestInv] at hbest ⊢
      split
      · simp only
        omega
      · omega

theorem flmOuter_inv {a b : List Char} {alo ahi blo bhi : Nat} :
    ∀ (len s : Nat) (j2len : List (Nat × Nat)) (best : Nat × Nat × Nat) (bnd : Nat),
    J2LInv blo bhi bnd j2len → BestInv alo ahi blo bhi best →
    alo + bnd ≤ s → s + len ≤ ahi →
    BestInv alo ahi blo bhi (flmOuter a b blo bhi (List.range' s len) j2len best) := by
  intro len
  induction len with
  | zero => intro s j2len best bnd _ hbest _ _; simpa [flmOuter] using hbest
  | succ n ih =>
    intro s j2len best bnd hj2 hbest hbnd hlen
    rw [List.range'_succ, flmOuter]
    have hjs : ∀ j ∈ (b2j b (a.getD s default)).filter (fun j => blo ≤ j ∧ j < bhi),
        blo ≤ j ∧ j < bhi := by
      intro j hj
      have := List.of_mem_filter hj
      simpa using this
    have h := @flmInner_inv blo bhi alo ahi s bnd (by omega) hbnd _ j2len [] best hjs hj2
      (by intro p hp; simp at hp) hbest
    exact ih (s + 1) _ _ (bnd + 1) h.1 h.2 (by omega) (by omega)

theorem extendBack_inv {a b : List Char} {alo ahi blo bhi : Nat} :
    ∀ besti bestj bestsize, BestInv alo ahi blo bhi (besti, bestj, bestsize) →
    BestInv alo ahi blo bhi (extendBack a b alo blo besti bestj bestsize) := by
  intro besti
  induction besti with
  | zero => intro bestj bestsize hinv; exact hinv
  | succ n ih =>
    intro bestj bestsize hinv
    rw [extendBack]
    split
    · rename_i hc
      simp only [BestInv] at hinv ⊢
      exact ih _ _ (by simp only [BestInv]; omega)
    · exact hinv

theorem extendFwd_inv {a b : List Char} {alo ahi blo bhi : Nat} {besti bestj : Nat} :
    ∀ gas bestsize,
    BestInv alo ahi blo bhi (besti, bestj, bestsize) →
    BestInv alo ahi blo bhi (besti, bestj, extendFwd a b ahi bhi besti bestj gas bestsize) := by
  intro gas
  induction gas with
  | zero => intro bestsize hinv; exact hinv
  | succ n ih =>
    intro bestsize hinv
    rw [extendFwd]
    split
    · rename_i hc
      simp only [BestInv] at hinv ⊢
      have := ih (bestsize + 1) (by simp only [BestInv]; omega)
      simp only [BestInv] at this
      exact this
    · exact hinv

/-- The block returned by `find_longest_match` sits inside the search window:
`alo ≤ i`, `blo ≤ j`, and when the block is nonempty `i + k ≤ ahi` and
`j + k ≤ bhi`; an empty best block sits at `(alo, blo)`. -/
theorem find_longest_match_inv (a b : List Char) (alo ahi blo bhi : Nat) :
    BestInv alo ahi blo bhi (find_longest_match a b alo ahi blo bhi) := by
  have h0 : BestInv alo ahi blo bhi (alo, blo, 0) :=
    ⟨le_rfl, le_rfl, fun h => absurd rfl h, fun _ => ⟨rfl, rfl⟩⟩
  have h1 : BestInv alo ahi blo bhi
      (flmOuter a b blo bhi (List.range' alo (ahi - alo)) [] (alo, blo, 0)) := by
    rcases Nat.lt_or_ge ahi alo with hlt | hle
    · have hz : ahi - alo = 0 := by omega
      rw [hz]
      simpa [flmOuter] using h0
    · exact flmOuter_inv (ahi - alo) alo ([] : List (Nat × Nat)) (alo, blo, 0) 0
        (by intro p hp; simp at hp) h0 (by omega) (by omega)
  have h2 := @extendBack_inv a b _ _ _ _ _ _ _
    (by
      rcases flmOuter a b blo bhi (List.range' alo (ahi - alo)) [] (alo, blo, 0) with ⟨x, y, z⟩
      exact h1)
  rw [find_longest_match]
  rcases he : extendBack a b alo blo (flmOuter a b blo bhi (List.range' alo (ahi - alo))
      [] (alo, blo, 0)).1 (flmOuter a b blo bhi (List.range' alo (ahi - alo))
      [] (alo, blo, 0)).2.1 (flmOuter a b blo bhi (List.range' alo (ahi - alo))
      [] (alo, blo, 0)).2.2 with ⟨ei, ej, ek⟩
  rw [he] at h2
  exact extendFwd_inv ahi ek h2

/-- The divide-and-conquer of `get_matching_blocks`, in recursive form: find the
longest match of the window, recurse on what precedes it (when
`alo < i and blo < j`) and on what follows it (when `i+k < ahi and j+k < bhi`).
The source drives the same recursion through an explicit LIFO queue and sorts
the collected blocks afterwards; the windows explored are pairwise disjoint and
ordered in both coordinates, so that sort re-establishes exactly this in-order
list (`matchingBlocksRec_chained` below proves the ordering).  The recursion is
driven by a fuel counter: each recursive call strictly shrinks the window
measure `(ahi - alo) + (bhi - blo)` (by `find_longest_match_inv`), so the
caller's fuel `len a + len b` never runs out; with fuel 0 the window is empty
and the longest match has size 0, so `[]` is returned either way. -/
def matchingBlocksRec (a b : List Char) : Nat → Nat → Nat → Nat → Nat → List (Nat × Nat × Nat)
  | 0, _, _, _, _ => []
  | fuel + 1, alo, ahi, blo, bhi =>
    if (find_longest_match a b alo ahi blo bhi).2.2 = 0 then []
    else
      (if alo < (find_longest_match a b alo ahi blo bhi).1 ∧
          blo < (find_longest_match a b alo ahi blo bhi).2.1 then
        matchingBlocksRec a b fuel alo (find_longest_match a b alo ahi blo bhi).1 blo
          (find_longest_match a b alo ahi blo bhi).2.1
      else []) ++
      ((find_longest_match a b alo ahi blo bhi).1, (find_longest_match a b alo ahi blo bhi).2.1,
        (find_longest_match a b alo ahi blo bhi).2.2) ::
      (if (find_longest_match a b alo ahi blo bhi).1 +
            (find_longest_match a b alo ahi blo bhi).2.2 < ahi ∧
          (find_longest_match a b alo ahi blo bhi).2.1 +
            (find_longest_match a b alo ahi blo bhi).2.2 < bhi then
        matchingBlocksRec a b fuel
          ((find_longest_match a b alo ahi blo bhi).1 +
            (find_longest_match a b alo ahi blo bhi).2.2) ahi
          ((find_longest_match a b alo ahi blo bhi).2.1 +
            (find_longest_match a b alo ahi blo bhi).2.2) bhi
      else [])

/-- `(i1,j1,k1)`-fold of `get_matching_blocks` collapsing adjacent blocks
(`if i1 + k1 == i2 and j1 + k1 == j2: k1 += k2`), started at `(0, 0, 0)`. -/
def mergeAdjacent : Nat → Nat → Nat → List (Nat × Nat × Nat) → List (Nat × Nat × Nat)
  | i1, j1, k1, [] => if k1 ≠ 0 then [(i1, j1, k1)] else []
  | i1, j1, k1, (i2, j2, k2) :: rest =>
    if i1 + k1 = i2 ∧ j1 + k1 = j2 then mergeAdjacent i1 j1 (k1 + k2) rest
    else (if k1 ≠ 0 then [(i1, j1, k1)] else []) ++ mergeAdjacent i2 j2 k2 rest

/-- `SequenceMatcher.get_matching_blocks`: the collapsed blocks followed by the
sentinel `(len(a), len(b), 0)`. -/
def get_matching_blocks (a b : List Char) : List (Nat × Nat × Nat) :=
  mergeAdjacent 0 0 0
    (matchingBlocksRec a b (a.length + b.length) 0 a.length 0 b.length) ++
    [(a.length, b.length, 0)]

/-- The opcode loop of `get_opcodes`, walking the matching blocks from `(i, j)`. -/
def opcodesFromBlocks : Nat → Nat → List (Nat × Nat × Nat) →
    List (String × Nat × Nat × Nat × Nat)
  | _, _, [] => []
  | i, j, (ai, bj, size) :: rest =>
    let tag : String :=
      if i < ai ∧ j < bj then "replace"
      else if i < ai then "delete"
      else if j < bj then "insert"
      else ""
    (if tag ≠ "" then [(tag, i, ai, j, bj)] else []) ++
    (if size ≠ 0 then [("equal", ai, ai + size, bj, bj + size)] else []) ++
    opcodesFromBlocks (ai + size) (bj + size) rest

/-- `SequenceMatcher.get_opcodes` for `SequenceMatcher(lambda x: False, a, b)`. -/
def get_opcodes (a b : List Char) : List (String × Nat × Nat × Nat × Nat) :=
  opcodesFromBlocks 0 0 (get_matching_blocks a b)

/-- The blocks of `l` lie inside the window `[lo₁, hi₁] × [lo₂, hi₂]` and are
chained: each block starts no earlier than the previous block's end, in both
coordinates. -/
def Chained (lo₁ lo₂ : Nat) (hi₁ hi₂ : Nat) : List (Nat × Nat × Nat) → Prop
  | [] => lo₁ ≤ hi₁ ∧ lo₂ ≤ hi₂
  | (i, j, k) :: rest => lo₁ ≤ i ∧ lo₂ ≤ j ∧ Chained (i + k) (j + k) hi₁ hi₂ rest

theorem Chained.mono_lo {hi₁ hi₂ : Nat} :
    ∀ {l : List (Nat × Nat × Nat)} {lo₁ lo₂ lo₁' lo₂' : Nat},
    Chained lo₁ lo₂ hi₁ hi₂ l → lo₁' ≤ lo₁ → lo₂' ≤ lo₂ → Chained lo₁' lo₂' hi₁ hi₂ l := by
  intro l
  induction l with
  | nil => intro _ _ _ _ h h1 h2; exact ⟨le_trans h1 h.1, le_trans h2 h.2⟩
  | cons p rest ih =>
    rcases p with ⟨i, j, k⟩
    intro _ _ _ _ h h1 h2
    exact ⟨le_trans h1 h.1, le_trans h2 h.2.1, h.2.2⟩

theorem Chained.append {hi₁ hi₂ : Nat} :
    ∀ {l₁ l₂ : List (Nat × Nat × Nat)} {lo₁ lo₂ i j k : Nat},
    Chained lo₁ lo₂ i j l₁ → Chained (i + k) (j + k) hi₁ hi₂ l₂ →
    Chained lo₁ lo₂ hi₁ hi₂ (l₁ ++ (i, j, k) :: l₂) := by
  intro l₁
  induction l₁ with
  | nil =>
    intro l₂ lo₁ lo₂ i j k h1 h2
    exact ⟨h1.1, h1.2, h2⟩
  | cons p rest ih =>
    rcases p with ⟨x, y, z⟩
    intro l₂ lo₁ lo₂ i j k h1 h2
    exact ⟨h1.1, h1.2.1, ih h1.2.2 h2⟩

/-- The blocks found by the recursive divide-and-conquer are chained inside the
search window; in particular they are sorted in both coordinates, which is why
the queue-and-sort of the source produces exactly this list. -/
theorem matchingBlocksRec_chained (a b : List Char) :
    ∀ fuel alo ahi blo bhi, alo ≤ ahi → blo ≤ bhi →
    Chained alo blo ahi bhi (matchingBlocksRec a b fuel alo ahi blo bhi) := by
  intro fuel
  induction fuel with
  | zero =>
    intro alo ahi blo bhi h1 h2
    exact ⟨h1, h2⟩
  | succ n ih =>
    intro alo ahi blo bhi h1 h2
    rw [matchingBlocksRec]
    have h := find_longest_match_inv a b alo ahi blo bhi
    simp only [BestInv] at h
    split
    · exact ⟨h1, h2⟩
    · rename_i hk
      have hbounds := h.2.2.1 hk
      have hleft : Chained alo blo (find_longest_match a b alo ahi blo bhi).1
          (find_longest_match a b alo ahi blo bhi).2.1
          (if alo < (find_longest_match a b alo ahi blo bhi).1 ∧
              blo < (find_longest_match a b alo ahi blo bhi).2.1 then
            matchingBlocksRec a b n alo (find_longest_match a b alo ahi blo bhi).1 blo
              (find_longest_match a b alo ahi blo bhi).2.1 else []) := by
        split
        · exact ih _ _ _ _ (by omega) (by omega)
        · exact ⟨h.1, h.2.1⟩
      have hright : Chained ((find_longest_match a b alo ahi blo bhi).1 +
            (find_longest_match a b alo ahi blo bhi).2.2)
          ((find_longest_match a b alo ahi blo bhi).2.1 +
            (find_longest_match a b alo ahi blo bhi).2.2) ahi bhi
          (if (find_longest_match a b alo ahi blo bhi).1 +
                (find_longest_match a b alo ahi blo bhi).2.2 < ahi ∧
              (find_longest_match a b alo ahi blo bhi).2.1 +
                (find_longest_match a b alo ahi blo bhi).2.2 < bhi then
            matchingBlocksRec a b n ((find_longest_match a b alo ahi blo bhi).1 +
                (find_longest_match a b alo ahi blo bhi).2.2) ahi
              ((find_longest_match a b alo ahi blo bhi).2.1 +
                (find_longest_match a b alo ahi blo bhi).2.2) bhi else []) := by
        split
        · exact ih _ _ _ _ (by omega) (by omega)
        · exact ⟨by omega, by omega⟩
      exact Chained.append hleft hright

theorem mergeAdjacent_chained {hi₁ hi₂ : Nat} :
    ∀ (l : List (Nat × Nat × Nat)) (i1 j1 k1 : Nat),
    Chained (i1 + k1) (j1 + k1) hi₁ hi₂ l →
    Chained i1 j1 hi₁ hi₂ (mergeAdjacent i1 j1 k1 l) := by
  intro l
  induction l with
  | nil =>
    intro i1 j1 k1 h
    have h' : i1 + k1 ≤ hi₁ ∧ j1 + k1 ≤ hi₂ := h
    rw [mergeAdjacent]
    split
    · exact ⟨le_rfl, le_rfl, h⟩
    · exact ⟨by omega, by omega⟩
  | cons p rest ih =>
    rcases p with ⟨i2, j2, k2⟩
    intro i1 j1 k1 h
    have hA : i1 + k1 ≤ i2 := h.1
    have hB : j1 + k1 ≤ j2 := h.2.1
    rw [mergeAdjacent]
    split
    · rename_i hadj
      have h2 := h.2.2
      rw [← hadj.1, ← hadj.2] at h2
      refine ih i1 j1 (k1 + k2) ?_
      rw [← Nat.add_assoc, ← Nat.add_assoc]
      exact h2
    · have hrest := ih i2 j2 k2 h.2.2
      split
      · exact ⟨le_rfl, le_rfl, Chained.mono_lo hrest hA hB⟩
      · rename_i hk0
        exact Chained.mono_lo hrest (by omega) (by omega)

theorem chained_append_sentinel {la lb : Nat} :
    ∀ (l : List (Nat × Nat × Nat)) (lo₁ lo₂ : Nat),
    Chained lo₁ lo₂ la lb l → Chained lo₁ lo₂ la lb (l ++ [(la, lb, 0)]) := by
  intro l
  induction l with
  | nil => intro lo₁ lo₂ h; exact ⟨h.1, h.2, by omega, by omega⟩
  | cons p rest ih =>
    rcases p with ⟨i, j, k⟩
    intro lo₁ lo₂ h
    exact ⟨h.1, h.2.1, ih _ _ h.2.2⟩

/-- The full block list handed to the opcode loop is chained inside
`[0, len a] × [0, len b]` (and ends with the sentinel). -/
theorem get_matching_blocks_chained (a b : List Char) :
    Chained 0 0 a.length b.length (get_matching_blocks a b) := by
  have h0 := matchingBlocksRec_chained a b
    (a.length + b.length) 0 a.length 0 b.length (Nat.zero_le _) (Nat.zero_le _)
  exact chained_append_sentinel _ _ _
    (mergeAdjacent_chained _ 0 0 0 (by simpa using h0))

/-- Structure of the opcode list: starting from the cursor `(i, j)`, opcodes
tile `a` and `b` consecutively — each opcode starts where the previous one
ended, spans are non-decreasing, and the final cursor stays within
`(hi₁, hi₂)`. -/
def OpsCover (hi₁ hi₂ : Nat) : Nat → Nat → List (String × Nat × Nat × Nat × Nat) → Prop
  | i, j, [] => i ≤ hi₁ ∧ j ≤ hi₂
  | i, j, (_, i1, i2, j1, j2) :: rest =>
    i1 = i ∧ j1 = j ∧ i1 ≤ i2 ∧ j1 ≤ j2 ∧ OpsCover hi₁ hi₂ i2 j2 rest

theorem opcodesFromBlocks_cover {hi₁ hi₂ : Nat} :
    ∀ (l : List (Nat × Nat × Nat)) (i j : Nat),
    Chained i j hi₁ hi₂ l → OpsCover hi₁ hi₂ i j (opcodesFromBlocks i j l) := by
  intro l
  induction l with
  | nil => intro i j h; exact ⟨h.1, h.2⟩
  | cons p rest ih =>
    rcases p with ⟨ai, bj, size⟩
    intro i j h
    rw [opcodesFromBlocks]
    have hrest := ih (ai + size) (bj + size) h.2.2
    have hi : i ≤ ai := h.1
    have hj : j ≤ bj := h.2.1
    have hnext : OpsCover hi₁ hi₂ ai bj
        ((if size ≠ 0 then [("equal", ai, ai + size, bj, bj + size)] else []) ++
          opcodesFromBlocks (ai + size) (bj + size) rest) := by
      by_cases hsz : size = 0
      · rw [if_neg (by simp [hsz])]
        simpa [hsz] using hrest
      · rw [if_pos hsz]
        exact ⟨rfl, rfl, by omega, by omega, hrest⟩
    rcases Nat.lt_or_ge i ai with hia | hia <;> rcases Nat.lt_or_ge j bj with hjb | hjb
    · rw [if_pos (show i < ai ∧ j < bj from ⟨hia, hjb⟩),
        if_pos (by decide : ("replace" : String) ≠ "")]
      exact ⟨rfl, rfl, by omega, by omega, hnext⟩
    · rw [if_neg (by omega : ¬(i < ai ∧ j < bj)), if_pos hia,
        if_pos (by decide : ("delete" : String) ≠ "")]
      exact ⟨rfl, rfl, by omega, by omega, hnext⟩
    · rw [if_neg (by omega : ¬(i < ai ∧ j < bj)), if_neg (by omega : ¬ i < ai),
        if_pos hjb, if_pos (by decide : ("insert" : String) ≠ "")]
      exact ⟨rfl, rfl, by omega, by omega, hnext⟩
    · have hieq : i = ai := by omega
      have hjeq : j = bj := by omega
      rw [if_neg (by omega : ¬(i < ai ∧ j < bj)), if_neg (by omega : ¬ i < ai),
        if_neg (by omega : ¬ j < bj), if_neg (by simp : ¬("" : String) ≠ "")]
      rw [hieq, hjeq]
      simpa using hnext

/-- The opcodes of `get_opcodes` tile both strings starting at `(0, 0)`. -/
theorem get_opcodes_cover (a b : List Char) :
    OpsCover a.length b.length 0 0 (get_opcodes a b) :=
  opcodesFromBlocks_cover _ 0 0 (get_matching_blocks_chained a b)

end Difflib

/-- Python's slice `s[lo:hi]` (clamped at both ends, as in Python). -/
def pySlice (s : List Char) (lo hi : Nat) : List Char := (s.take hi).drop lo

/-- The record returned by the similarity calculators (the string-keyed dict of
the source, with its eleven keys as fields).  `unmatched_char_count` and
`dissimilarity_score` are computed with Python integer subtraction and are kept
as `Int`. -/
structure SimilarityResult where
  dissimilarity_score : Int
  text_length : Nat
  subtext_length : Nat
  unmatched_char_count : Int
  matched_char_count : Nat
  gap_char_count : Nat
  inserted_char_count : Nat
  replaced_char_count : Nat
  -- the dict key 'matches' of the source (`matches` is reserved in Lean)
  matchesList : List (List Char)
  replacements : List (List Char × List Char)
  gaps : List (List Char)
deriving Repr, DecidableEq

/-- A matching segment `(operation, (i, i+len(sub1)), (j, j+len(sub2)))`. -/
abbrev Segment := String × (Nat × Nat) × (Nat × Nat)

/-- Stable insertion into a list sorted by text-span start.  Python's
`list.sort(key=lambda x: x[1][0])` is stable; inserting before the first
strictly greater key (`≤` against the existing element) preserves the original
order of equal keys, so this insertion sort computes the same list. -/
def insertSeg (x : Segment) : List Segment → List Segment
  | [] => [x]
  | y :: ys => if x.2.1.1 ≤ y.2.1.1 then x :: y :: ys else y :: insertSeg x ys

def sortSegments : List Segment → List Segment
  | [] => []
  | x :: xs => insertSeg x (sortSegments xs)

/-- The gap spans of the sorted segment list: for each consecutive pair, the
stretch of `text` strictly between the end of one segment and the start of the
next (`if end_current < start_next`). -/
def gapSpans : List Segment → List (Nat × Nat)
  | s1 :: s2 :: rest =>
    (if s1.2.1.2 < s2.2.1.1 then [(s1.2.1.2, s2.2.1.1)] else []) ++ gapSpans (s2 :: rest)
  | _ => []

namespace StringMatching

/-- `compare_strings` of `string_matching.py`: the opcodes of
`difflib.SequenceMatcher(lambda x: False, source_text, target_text)`, each with
the two sliced substrings and the two start offsets. -/
def compare_strings (source_text target_text : List Char) :
    List (String × List Char × List Char × Nat × Nat) :=
  (Difflib.get_opcodes source_text target_text).map fun d =>
    (d.1, pySlice source_text d.2.1 d.2.2.1, pySlice target_text d.2.2.2.1 d.2.2.2.2,
      d.2.1, d.2.2.2.1)

/-- `calculate_string_similarity` of `string_matching.py`. -/
def calculate_string_similarity (text subtext : List Char) : SimilarityResult :=
  let matching_segments : List Segment :=
    ((compare_strings text subtext).filter
      (fun d => d.1 = "equal" ∨ d.1 = "replace" ∨ d.1 = "insert")).map
      (fun d => (d.1, (d.2.2.2.1, d.2.2.2.1 + d.2.1.length),
        (d.2.2.2.2, d.2.2.2.2 + d.2.2.1.length)))
  let sorted := sortSegments matching_segments
  let unmatched_segments := gapSpans sorted
  let exact_matches := (sorted.filter (fun s => s.1 = "equal")).map
      (fun s => pySlice text s.2.1.1 s.2.1.2)
  let replacements := (sorted.filter (fun s => s.1 = "replace")).map
      (fun s => (pySlice text s.2.1.1 s.2.1.2, pySlice subtext s.2.2.1 s.2.2.2))
  let gaps := unmatched_segments.map (fun g => pySlice text g.1 g.2)
  let gap_char_count := (unmatched_segments.map (fun g => g.2 - g.1)).sum
  let matched_char_count := ((sorted.filter (fun s => s.1 = "equal")).map
      (fun s => s.2.2.2 - s.2.2.1)).sum
  let inserted_char_count := ((sorted.filter (fun s => s.1 = "insert")).map
      (fun s => s.2.2.2 - s.2.2.1)).sum
  let replaced_char_count := ((sorted.filter (fun s => s.1 = "replace")).map
      (fun s => s.2.1.2 - s.2.1.1)).sum
  let unmatched_char_count : Int := (subtext.length : Int) - matched_char_count
  { dissimilarity_score := unmatched_char_count + inserted_char_count +
      replaced_char_count + gap_char_count
    text_length := text.length
    subtext_length := subtext.length
    unmatched_char_count := unmatched_char_count
    matched_char_count := matched_char_count
    gap_char_count := gap_char_count
    inserted_char_count := inserted_char_count
    replaced_char_count := replaced_char_count
    matchesList := exact_matches
    replacements := replacements
    gaps := gaps }

end StringMatching

namespace StringSequenceMatcher

/-- `compare_strings` of `src/string_algorithms/string_sequence_matcher.py`
(textually identical to the one in `string_matching.py`). -/
def compare_strings (source_text target_text : List Char) :
    List (String × List Char × List Char × Nat × Nat) :=
  (Difflib.get_opcodes source_text target_text).map fun d =>
    (d.1, pySlice source_text d.2.1 d.2.2.1, pySlice target_text d.2.2.2.1 d.2.2.2.2,
      d.2.1, d.2.2.2.1)

/-- `calculate_string_similarity` of
`src/string_algorithms/string_sequence_matcher.py` (textually identical to the
one in `string_matching.py`). -/
def calculate_string_similarity (text subtext : List Char) : SimilarityResult :=
  let matching_segments : List Segment :=
    ((compare_strings text subtext).filter
      (fun d => d.1 = "equal" ∨ d.1 = "replace" ∨ d.1 = "insert")).map
      (fun d => (d.1, (d.2.2.2.1, d.2.2.2.1 + d.2.1.length),
        (d.2.2.2.2, d.2.2.2.2 + d.2.2.1.length)))
  let sorted := sortSegments matching_segments
  let unmatched_segments := gapSpans sorted
  let exact_matches := (sorted.filter (fun s => s.1 = "equal")).map
      (fun s => pySlice text s.2.1.1 s.2.1.2)
  let replacements := (sorted.filter (fun s => s.1 = "replace")).map
      (fun s => (pySlice text s.2.1.1 s.2.1.2, pySlice subtext s.2.2.1 s.2.2.2))
  let gaps := unmatched_segments.map (fun g => pySlice text g.1 g.2)
  let gap_char_count := (unmatched_segments.map (fun g => g.2 - g.1)).sum
  let matched_char_count := ((sorted.filter (fun s => s.1 = "equal")).map
      (fun s => s.2.2.2 - s.2.2.1)).sum
  let inserted_char_count := ((sorted.filter (fun s => s.1 = "insert")).map
      (fun s => s.2.2.2 - s.2.2.1)).sum
  let replaced_char_count := ((sorted.filter (fun s => s.1 = "replace")).map
      (fun s => s.2.1.2 - s.2.1.1)).sum
  let unmatched_char_count : Int := (subtext.length : Int) - matched_char_count
  { dissimilarity_score := unmatched_char_count + inserted_char_count +
      replaced_char_count + gap_char_count
    text_length := text.length
    subtext_length := subtext.length
    unmatched_char_count := unmatched_char_count
    matched_char_count := matched_char_count
    gap_char_count := gap_char_count
    inserted_char_count := inserted_char_count
    replaced_char_count := replaced_char_count
    matchesList := exact_matches
    replacements := replacements
    gaps := gaps }

end StringSequenceMatcher

namespace StringSubsequenceMatching

/-- `compare_strings` of
`src/string_algorithms/scripts/string_subsequence_matching.py` (textually
identical to the one in `string_matching.py`). -/
def compare_strings (source_text target_text : List Char) :
    List (String × List Char × List Char × Nat × Nat) :=
  (Difflib.get_opcodes source_text target_text).map fun d =>
    (d.1, pySlice source_text d.2.1 d.2.2.1, pySlice target_text d.2.2.2.1 d.2.2.2.2,
      d.2.1, d.2.2.2.1)

/-- `_calculate_substring_similarity` of
`src/string_algorithms/scripts/string_subsequence_matching.py` (the "original
metric calculator, kept untouched" — textually the same computation as
`calculate_string_similarity` in `string_matching.py`). -/
def calculateSubstringSimilarityCore (text subtext : List Char) : SimilarityResult :=
  let matching_segments : List Segment :=
    ((compare_strings text subtext).filter
      (fun d => d.1 = "equal" ∨ d.1 = "replace" ∨ d.1 = "insert")).map
      (fun d => (d.1, (d.2.2.2.1, d.2.2.2.1 + d.2.1.length),
        (d.2.2.2.2, d.2.2.2.2 + d.2.2.1.length)))
  let sorted := sortSegments matching_segments
  let unmatched_segments := gapSpans sorted
  let exact_matches := (sorted.filter (fun s => s.1 = "equal")).map
      (fun s => pySlice text s.2.1.1 s.2.1.2)
  let replacements := (sorted.filter (fun s => s.1 = "replace")).map
      (fun s => (pySlice text s.2.1.1 s.2.1.2, pySlice subtext s.2.2.1 s.2.2.2))
  let gaps := unmatched_segments.map (fun g => pySlice text g.1 g.2)
  let gap_char_count := (unmatched_segments.map (fun g => g.2 - g.1)).sum
  let matched_char_count := ((sorted.filter (fun s => s.1 = "equal")).map
      (fun s => s.2.2.2 - s.2.2.1)).sum
  let inserted_char_count := ((sorted.filter (fun s => s.1 = "insert")).map
      (fun s => s.2.2.2 - s.2.2.1)).sum
  let replaced_char_count := ((sorted.filter (fun s => s.1 = "replace")).map
      (fun s => s.2.1.2 - s.2.1.1)).sum
  let unmatched_char_count : Int := (subtext.length : Int) - matched_char_count
  { dissimilarity_score := unmatched_char_count + inserted_char_count +
      replaced_char_count + gap_char_count
    text_length := text.length
    subtext_length := subtext.length
    unmatched_char_count := unmatched_char_count
    matched_char_count := matched_char_count
    gap_char_count := gap_char_count
    inserted_char_count := inserted_char_count
    replaced_char_count := replaced_char_count
    matchesList := exact_matches
    replacements := replacements
    gaps := gaps }

/-- Modelled from the spec: "case-folding" preprocessing (`str.casefold`, from
the Python standard library, not part of this repository).  Only exercised when
`case_sensitive` is `False`, which no settled claim does. -/
def casefoldStr (s : List Char) : List Char := s.map Char.toLower

/-- Modelled from the spec: "whitespace stripping" preprocessing
(`re.sub(r"\s+", "", s)`, i.e. removal of every Unicode whitespace character;
`re` is the Python standard library, not part of this repository).  Only
exercised when `ignore_whitespace` is `True`, which no settled claim does. -/
def stripWhitespaceStr (s : List Char) : List Char := s.filter (fun c => ¬ c.isWhitespace)

/-- Modelled from the spec: "Unicode canonical-compatibility normalization"
(`unicodedata.normalize("NFKC", s)`, from the Python standard library, not part
of this repository; left as the identity embedding here).  Only exercised when
`normalize` is `True`, which no settled claim does. -/
def nfkcNormalize (s : List Char) : List Char := s

/-- The extra keys `update`d into the result dictionary when `debug == True`. -/
structure DebugMeta where
  case_sensitive : Bool
  ignore_whitespace : Bool
  normalize : Bool
  original_text : List Char
  original_sub : List Char
  processed_text : List Char
  processed_sub : List Char
deriving Repr, DecidableEq

/-- The dictionary returned by the wrapper: the core result, plus the debug
keys when they were added. -/
structure WrappedResult where
  result : SimilarityResult
  debugMeta : Option DebugMeta
deriving Repr, DecidableEq

/-- `calculate_substring_similarity` of
`src/string_algorithms/scripts/string_subsequence_matching.py`: optional NFKC
normalization, whitespace removal and case-folding, then the original
calculator, then the debug keys when `debug == True`.  The Python defaults are
`case_sensitive=True, ignore_whitespace=False, normalize=False, debug=False`. -/
def calculate_substring_similarity (text sub : List Char)
    (case_sensitive ignore_whitespace normalize debug : Bool) : WrappedResult :=
  let processed_text := if normalize then nfkcNormalize text else text
  let processed_sub := if normalize then nfkcNormalize sub else sub
  let processed_text := if ignore_whitespace then stripWhitespaceStr processed_text
    else processed_text
  let processed_sub := if ignore_whitespace then stripWhitespaceStr processed_sub
    else processed_sub
  let processed_text := if case_sensitive then processed_text else casefoldStr processed_text
  let processed_sub := if case_sensitive then processed_sub else casefoldStr processed_sub
  let results := calculateSubstringSimilarityCore processed_text processed_sub
  if debug = true then
    { result := results
      debugMeta := some
        { case_sensitive := case_sensitive
          ignore_whitespace := ignore_whitespace
          normalize := normalize
          original_text := text
          original_sub := sub
          processed_text := processed_text
          processed_sub := processed_sub } }
  else
    { result := results, debugMeta := none }

end StringSubsequenceMatching

/-- `m` occurs contiguously inside `s`. -/
def SubstringOf (m s : List Char) : Prop := ∃ u v, s = u ++ (m ++ v)

theorem pySlice_substring (s : List Char) (lo hi : Nat) :
    SubstringOf (pySlice s lo hi) s := by
  obtain ⟨u, hu⟩ := List.drop_suffix lo (s.take hi)
  obtain ⟨v, hv⟩ := List.take_prefix hi s
  refine ⟨u, v, ?_⟩
  conv_lhs => rw [← hv, ← hu]
  simp [pySlice, List.append_assoc]

theorem pySlice_length_le (s : List Char) (lo hi : Nat) :
    (pySlice s lo hi).length ≤ hi - lo := by
  simp only [pySlice, List.length_drop, List.length_take]
  omega

theorem opsCover_le {hi₁ hi₂ : Nat} :
    ∀ (ops : List (String × Nat × Nat × Nat × Nat)) (i j : Nat),
    Difflib.OpsCover hi₁ hi₂ i j ops → i ≤ hi₁ ∧ j ≤ hi₂ := by
  intro ops
  induction ops with
  | nil => intro i j h; exact h
  | cons o rest ih =>
    rcases o with ⟨tag, i1, i2, j1, j2⟩
    intro i j h
    have hr := ih i2 j2 h.2.2.2.2
    have h1 := h.1
    have h2 := h.2.1
    have h3 := h.2.2.1
    have h4 := h.2.2.2.1
    omega

theorem opsCover_sumJ {hi₁ hi₂ : Nat} :
    ∀ (ops : List (String × Nat × Nat × Nat × Nat)) (i j : Nat),
    Difflib.OpsCover hi₁ hi₂ i j ops →
    (ops.map (fun o => o.2.2.2.2 - o.2.2.2.1)).sum + j ≤ hi₂ := by
  intro ops
  induction ops with
  | nil => intro i j h; simpa using h.2
  | cons o rest ih =>
    rcases o with ⟨tag, i1, i2, j1, j2⟩
    intro i j h
    have hr := ih i2 j2 h.2.2.2.2
    have h1 := h.1
    have h2 := h.2.1
    have h4 := h.2.2.2.1
    simp only [List.map_cons, List.sum_cons]
    omega

theorem sum_map_filter_le {α : Type} (f : α → Nat) (p : α → Bool) :
    ∀ l : List α, ((l.filter p).map f).sum ≤ (l.map f).sum := by
  intro l
  induction l with
  | nil => simp
  | cons x xs ih =>
    by_cases hp : p x
    · simp only [List.filter_cons, hp, if_pos, List.map_cons, List.sum_cons]
      omega
    · simp only [List.filter_cons, List.map_cons, List.sum_cons, if_neg hp]
      omega

theorem insertSeg_perm (x : Segment) : ∀ l : List Segment, (insertSeg x l).Perm (x :: l) := by
  intro l
  induction l with
  | nil => exact List.Perm.refl _
  | cons y ys ih =>
    rw [insertSeg]
    split
    · exact List.Perm.refl _
    · exact (ih.cons y).trans (List.Perm.swap x y ys)

theorem sortSegments_perm : ∀ l : List Segment, (sortSegments l).Perm l := by
  intro l
  induction l with
  | nil => exact List.Perm.refl _
  | cons x xs ih =>
    rw [sortSegments]
    exact (insertSeg_perm x (sortSegments xs)).trans (ih.cons x)

/-- The matching segments of `calculate_string_similarity`, before sorting. -/
def matchingSegments (text subtext : List Char) : List Segment :=
  ((StringMatching.compare_strings text subtext).filter
    (fun d => d.1 = "equal" ∨ d.1 = "replace" ∨ d.1 = "insert")).map
    (fun d => (d.1, (d.2.2.2.1, d.2.2.2.1 + d.2.1.length),
      (d.2.2.2.2, d.2.2.2.2 + d.2.2.1.length)))

theorem matched_le_subtext (text subtext : List Char) :
    (StringMatching.calculate_string_similarity text subtext).matched_char_count ≤
      subtext.length := by
  have hrfl : (StringMatching.calculate_string_similarity text subtext).matched_char_count =
      (((sortSegments (matchingSegments text subtext)).filter
        (fun s => s.1 = "equal")).map (fun s => s.2.2.2 - s.2.2.1)).sum := rfl
  rw [hrfl]
  have hperm := ((sortSegments_perm (matchingSegments text subtext)).filter
    (fun s : Segment => decide (s.1 = "equal"))).map (fun s : Segment => s.2.2.2 - s.2.2.1)
  rw [hperm.sum_eq]
  -- each segment's subtext-side length is at most the opcode's span `j2 - j1`
  have hpt : ∀ s ∈ (matchingSegments text subtext).filter (fun s => s.1 = "equal"),
      s.2.2.2 - s.2.2.1 ≤ s.2.2.2 - s.2.2.1 := fun _ _ => le_rfl
  -- bound the filtered sum by the sum over all segments
  have h1 : (((matchingSegments text subtext).filter (fun s => s.1 = "equal")).map
      (fun s => s.2.2.2 - s.2.2.1)).sum ≤
      ((matchingSegments text subtext).map (fun s => s.2.2.2 - s.2.2.1)).sum :=
    sum_map_filter_le _ _ _
  refine le_trans h1 ?_
  -- segments come from filtered opcodes; their subtext-side length is at most
  -- the opcode span, whose total is at most `subtext.length`
  have h2 : ((matchingSegments text subtext).map (fun s => s.2.2.2 - s.2.2.1)).sum ≤
      (((Difflib.get_opcodes text subtext).filter
        (fun d => d.1 = "equal" ∨ d.1 = "replace" ∨ d.1 = "insert")).map
        (fun o => o.2.2.2.2 - o.2.2.2.1)).sum := by
    rw [matchingSegments, StringMatching.compare_strings]
    rw [List.filter_map, List.map_map, List.map_map]
    refine List.sum_le_sum ?_
    intro o ho
    simp only [Function.comp]
    have := pySlice_length_le subtext o.2.2.2.1 o.2.2.2.2
    omega
  refine le_trans h2 ?_
  have h3 := sum_map_filter_le (fun o : String × Nat × Nat × Nat × Nat =>
    o.2.2.2.2 - o.2.2.2.1)
    (fun d => decide (d.1 = "equal" ∨ d.1 = "replace" ∨ d.1 = "insert"))
    (Difflib.get_opcodes text subtext)
  refine le_trans h3 ?_
  have h4 := @opsCover_sumJ text.length subtext.length
    (Difflib.get_opcodes text subtext) 0 0 (Difflib.get_opcodes_cover text subtext)
  omega

/-- C5: for every `(text, subtext)`, the similarity result satisfies exactly:
`matched_char_count` is the total subtext-side length of the `equal` segments,
`inserted_char_count` the total subtext-side length of the `insert` segments,
`replaced_char_count` the total text-side length of the `replace` segments,
`gap_char_count` the total length of the text spans strictly between
consecutive matching segments, `unmatched_char_count = len(subtext) −
matched_char_count`, and `dissimilarity_score = unmatched + inserted +
replaced + gap`. -/
theorem C5_similarity_count_formulas (text subtext : List Char) :
    (StringMatching.calculate_string_similarity text subtext).matched_char_count =
      (((sortSegments (matchingSegments text subtext)).filter
        (fun s => s.1 = "equal")).map (fun s => s.2.2.2 - s.2.2.1)).sum ∧
    (StringMatching.calculate_string_similarity text subtext).inserted_char_count =
      (((sortSegments (matchingSegments text subtext)).filter
        (fun s => s.1 = "insert")).map (fun s => s.2.2.2 - s.2.2.1)).sum ∧
    (StringMatching.calculate_string_similarity text subtext).replaced_char_count =
      (((sortSegments (matchingSegments text subtext)).filter
        (fun s => s.1 = "replace")).map (fun s => s.2.1.2 - s.2.1.1)).sum ∧
    (StringMatching.calculate_string_similarity text subtext).gap_char_count =
      ((gapSpans (sortSegments (matchingSegments text subtext))).map
        (fun g => g.2 - g.1)).sum ∧
    (StringMatching.calculate_string_similarity text subtext).unmatched_char_count =
      (subtext.length : Int) -
        (StringMatching.calculate_string_similarity text subtext).matched_char_count ∧
    (StringMatching.calculate_string_similarity text subtext).dissimilarity_score =
      (StringMatching.calculate_string_similarity text subtext).unmatched_char_count +
      (StringMatching.calculate_string_similarity text subtext).inserted_char_count +
      (StringMatching.calculate_string_similarity text subtext).replaced_char_count +
      (StringMatching.calculate_string_similarity text subtext).gap_char_count :=
  ⟨rfl, rfl, rfl, rfl, rfl, rfl⟩

/-- C6: for every `(text, subtext)`, the similarity result satisfies
`dissimilarity_score ≥ 0` and `matched_char_count ≤ len(subtext)`, and every
reported fragment — each exact-match string, each side of each replacement
pair, each gap string — is a contiguous substring of the corresponding
original input (matches and gaps of `text`; replacement first components of
`text`, second components of `subtext`). -/
theorem C6_similarity_invariants (text subtext : List Char) :
    0 ≤ (StringMatching.calculate_string_similarity text subtext).dissimilarity_score ∧
    (StringMatching.calculate_string_similarity text subtext).matched_char_count ≤
      subtext.length ∧
    (∀ m ∈ (StringMatching.calculate_string_similarity text subtext).matchesList,
      SubstringOf m text) ∧
    (∀ p ∈ (StringMatching.calculate_string_similarity text subtext).replacements,
      SubstringOf p.1 text ∧ SubstringOf p.2 subtext) ∧
    (∀ g ∈ (StringMatching.calculate_string_similarity text subtext).gaps,
      SubstringOf g text) := by
  have hm := matched_le_subtext text subtext
  refine ⟨?_, hm, ?_, ?_, ?_⟩
  · have hd : (StringMatching.calculate_string_similarity text subtext).dissimilarity_score =
        ((subtext.length : Int) -
          (StringMatching.calculate_string_similarity text subtext).matched_char_count) +
        (StringMatching.calculate_string_similarity text subtext).inserted_char_count +
        (StringMatching.calculate_string_similarity text subtext).replaced_char_count +
        (StringMatching.calculate_string_similarity text subtext).gap_char_count := rfl
    rw [hd]
    omega
  · intro m hmem
    have : (StringMatching.calculate_string_similarity text subtext).matchesList =
        ((sortSegments (matchingSegments text subtext)).filter
          (fun s => s.1 = "equal")).map (fun s => pySlice text s.2.1.1 s.2.1.2) := rfl
    rw [this] at hmem
    obtain ⟨sseg, _, hs⟩ := List.mem_map.1 hmem
    rw [← hs]
    exact pySlice_substring text _ _
  · intro p hmem
    have : (StringMatching.calculate_string_similarity text subtext).replacements =
        ((sortSegments (matchingSegments text subtext)).filter
          (fun s => s.1 = "replace")).map
          (fun s => (pySlice text s.2.1.1 s.2.1.2, pySlice subtext s.2.2.1 s.2.2.2)) := rfl
    rw [this] at hmem
    obtain ⟨sseg, _, hs⟩ := List.mem_map.1 hmem
    rw [← hs]
    exact ⟨pySlice_substring text _ _, pySlice_substring subtext _ _⟩
  · intro g hmem
    have : (StringMatching.calculate_string_similarity text subtext).gaps =
        (gapSpans (sortSegments (matchingSegments text subtext))).map
          (fun g => pySlice text g.1 g.2) := rfl
    rw [this] at hmem
    obtain ⟨gs, _, hs⟩ := List.mem_map.1 hmem
    rw [← hs]
    exact pySlice_substring text _ _

/-- C10: for every pair of input strings, the three duplicated similarity
implementations — `calculate_string_similarity` in `string_matching.py`,
`calculate_string_similarity` in
`src/string_algorithms/string_sequence_matcher.py`, and
`_calculate_substring_similarity` in
`src/string_algorithms/scripts/string_subsequence_matching.py` — return
identical results (same counts and same fragment lists), and
`calculate_substring_similarity` with its default options
(`case_sensitive=True, ignore_whitespace=False, normalize=False, debug=False`)
returns that same result (with no debug keys added). -/
theorem C10_implementations_agree (text subtext : List Char) :
    StringMatching.calculate_string_similarity text subtext =
      StringSequenceMatcher.calculate_string_similarity text subtext ∧
    StringSequenceMatcher.calculate_string_similarity text subtext =
      StringSubsequenceMatching.calculateSubstringSimilarityCore text subtext ∧
    StringSubsequenceMatching.calculate_substring_similarity text subtext
        true false false false =
      { result := StringSubsequenceMatching.calculateSubstringSimilarityCore text subtext
        debugMeta := none } :=
  ⟨rfl, rfl, rfl⟩

/-!
Shallow embedding of the amortization engine
(`src/financial_algorithms/scripts/loan_emi_calculator.py`).  Python floats are
embedded as exact rationals (`ℚ`); `simulate_loan` is split into the exact
monthly loop (`simLoop`, producing `RawEntry` values) and the `INR` rendering
of each appended dict row (`toRow` / `simulate_loan`), which composes the two —
the source formats each row inline from exactly these per-month values.
`homeloan.py` contains an earlier variant of the same loop without the
`MAX_MONTHS` ceiling and without the EMI-too-low check; the engine embedded
here is the one the spec documents.
-/

namespace LoanEmiCalculator

/-- The failure kinds of `simulate_loan`, named as in the spec:
`invalidArgument` for the two `ValueError`s about arguments ("must specify
either emi or target_months", and the empty-schedule check after the loop),
`nonAmortizing` for "EMI is too low to cover even the interest".  The code
raises nothing else; in particular no error exists for reaching the
`MAX_MONTHS` ceiling. -/
inductive LoanError where
  | invalidArgument : LoanError
  | nonAmortizing : LoanError
deriving Repr, DecidableEq

/-- One month of the repayment schedule, with the exact values from which the
appended dict row is rendered: `principal` excludes the lump sum (the reported
`Principal Paid` is `principal + lumpSum`), and `balance` is the reported
`Remaining Balance`, i.e. `balance if balance > 0 else 0`. -/
structure RawEntry where
  month : Nat
  emi : ℚ
  lumpSum : ℚ
  interest : ℚ
  principal : ℚ
  balance : ℚ
deriving Repr, DecidableEq

/-- `calculate_emi(P, r, n)`: `P / n` when `r == 0`, otherwise the annuity
formula `P * r * (1 + r) ** n / ((1 + r) ** n - 1)`. -/
def calculate_emi (P r : ℚ) (n : Nat) : ℚ :=
  if r = 0 then P / n
  else P * r * (1 + r) ^ n / ((1 + r) ^ n - 1)

/-- `MAX_MONTHS = 1200  # Safeguard to prevent infinite loops (100 years)`. -/
def MAX_MONTHS : Nat := 1200

/-- `lump_sums.get(month, 0)`. -/
def lumpGet (lumps : List (Nat × ℚ)) (m : Nat) : ℚ := (lumps.lookup m).getD 0

/-- The final-payment clamp of the loop body, acting on the scheduled
principal `principal0 = emi - interest` and the month's lump sum: when
`principal0 + lump0 > balance`, reduce the principal to `balance - lump0` (to
zero, capping the lump sum at the balance, when that is negative) and reassign
the month's EMI to `interest + principal`; otherwise leave all three unchanged.
Returns `(principal, lump_sum, emi)` after the `if total_payment > balance`
block. -/
def clampPayment (principal0 lump0 balance interest emi : ℚ) : ℚ × ℚ × ℚ :=
  if principal0 + lump0 > balance then
    if balance - lump0 < 0 then (0, balance, interest + 0)
    else (balance - lump0, lump0, interest + (balance - lump0))
  else (principal0, lump0, emi)

/-- The `while balance > 0 and month < MAX_MONTHS` loop of `simulate_loan`.
The fuel counter is `MAX_MONTHS - month`, so `month < MAX_MONTHS` is exactly
`fuel > 0`; the loop body computes the month's interest, raises
`nonAmortizing` when `emi < interest`, clamps the final payment
(`clampPayment`), appends the month's row and breaks once the balance reaches
zero or below. -/
def simLoop (r : ℚ) (lumps : List (Nat × ℚ)) :
    Nat → ℚ → ℚ → Nat → Except LoanError (List RawEntry)
  | 0, _, _, _ => .ok []
  | fuel + 1, emi, balance, month =>
    if balance ≤ 0 then .ok []
    else
      if emi < balance * r then .error .nonAmortizing
      else
        let c := clampPayment (emi - balance * r) (lumpGet lumps (month + 1)) balance
          (balance * r) emi
        let balance1 := balance - (c.1 + c.2.1)
        let entry : RawEntry :=
          { month := month + 1, emi := c.2.2, lumpSum := c.2.1, interest := balance * r,
            principal := c.1, balance := if balance1 > 0 then balance1 else 0 }
        if balance1 ≤ 0 then .ok [entry]
        else
          match simLoop r lumps fuel c.2.2 balance1 (month + 1) with
          | .error e => .error e
          | .ok rest => .ok (entry :: rest)

/-- `simulate_loan`, up to (but not including) the `INR` rendering of the rows:
the monthly rate, the EMI back-solve when only `target_months` is given, the
`ValueError` when neither is given, the loop, and the empty-schedule
`ValueError` after it. -/
def simulate_loan (loan_amount annual_interest_rate : ℚ) (emi? : Option ℚ)
    (lumps : List (Nat × ℚ)) (target_months? : Option Nat) :
    Except LoanError (List RawEntry) :=
  let r := annual_interest_rate / 12 / 100
  let run := fun (e : ℚ) =>
    match simLoop r lumps MAX_MONTHS e loan_amount 0 with
    | .error err => Except.error err
    | .ok schedule =>
        if schedule = [] then Except.error LoanError.invalidArgument
        else Except.ok schedule
  match emi?, target_months? with
  | none, some n => run (calculate_emi loan_amount r n)
  | none, none => .error .invalidArgument
  | some e, _ => run e

/-- Python's 1-argument `round`: round half to even (banker's rounding). -/
def pyRound (q : ℚ) : Int :=
  if q - ⌊q⌋ < 1/2 then ⌊q⌋
  else if q - ⌊q⌋ > 1/2 then ⌊q⌋ + 1
  else if ⌊q⌋ % 2 = 0 then ⌊q⌋ else ⌊q⌋ + 1

/-- Grouped-thousands rendering of the reversed digit list: after every three
digits, a `','` (the `{:,}` format specifier). -/
def groupThousands : List Char → List Char
  | a :: b :: c :: d :: rest => a :: b :: c :: ',' :: groupThousands (d :: rest)
  | l => l

/-- `f"{n:,}"` for an integer: sign, then digits grouped in threes. -/
def intComma (n : Int) : String :=
  (if n < 0 then "-" else "") ++
    String.mk ((groupThousands (Nat.toDigits 10 n.natAbs).reverse).reverse)

/-- `INR = lambda x: f"₹{int(round(x)):,}"`. -/
def INR (x : ℚ) : String := "₹" ++ intComma (pyRound x)

/-- One rendered row of the returned DataFrame: `Month` is the raw integer,
every other column is a currency string (`Lump Sum` is `''` when the lump sum
is zero, per `INR(lump_sum) if lump_sum else ''`). -/
structure Row where
  month : Nat
  emi : String
  lumpSum : String
  interest : String
  principal : String
  balance : String
deriving Repr, DecidableEq

/-- The dict appended for one month, rendered from the month's exact values. -/
def toRow (e : RawEntry) : Row :=
  { month := e.month
    emi := INR e.emi
    lumpSum := if e.lumpSum ≠ 0 then INR e.lumpSum else ""
    interest := INR e.interest
    principal := INR (e.principal + e.lumpSum)
    balance := INR e.balance }

/-- `simulate_loan` including the `INR` rendering of each appended row: the
returned DataFrame rows. -/
def simulate_loan_rows (loan_amount annual_interest_rate : ℚ) (emi? : Option ℚ)
    (lumps : List (Nat × ℚ)) (target_months? : Option Nat) :
    Except LoanError (List Row) :=
  (simulate_loan loan_amount annual_interest_rate emi? lumps target_months?).map
    (List.map toRow)

/-- Unfolding lemma for one loop iteration (the `fuel + 1` equation). -/
theorem simLoop_succ (r : ℚ) (lumps : List (Nat × ℚ)) (fuel : Nat)
    (emi balance : ℚ) (month : Nat) :
    simLoop r lumps (fuel + 1) emi balance month =
    if balance ≤ 0 then .ok []
    else
      if emi < balance * r then .error .nonAmortizing
      else
        let c := clampPayment (emi - balance * r) (lumpGet lumps (month + 1)) balance
          (balance * r) emi
        let balance1 := balance - (c.1 + c.2.1)
        let entry : RawEntry :=
          { month := month + 1, emi := c.2.2, lumpSum := c.2.1, interest := balance * r,
            principal := c.1, balance := if balance1 > 0 then balance1 else 0 }
        if balance1 ≤ 0 then .ok [entry]
        else
          match simLoop r lumps fuel c.2.2 balance1 (month + 1) with
          | .error e => .error e
          | .ok rest => .ok (entry :: rest) := rfl

/-- Basic facts about the clamp: the clamped payment never overshoots; with a
clamp it pays exactly the balance and the EMI is reassigned to
`interest + principal`; without one the scheduled payment is unchanged. -/
theorem clampPayment_facts (principal0 lump0 balance interest emi : ℚ) :
    (principal0 + lump0 > balance →
      (clampPayment principal0 lump0 balance interest emi).1 +
        (clampPayment principal0 lump0 balance interest emi).2.1 = balance ∧
      (clampPayment principal0 lump0 balance interest emi).2.2 =
        interest + (clampPayment principal0 lump0 balance interest emi).1) ∧
    (¬ principal0 + lump0 > balance →
      clampPayment principal0 lump0 balance interest emi =
        (principal0, lump0, emi)) ∧
    (clampPayment principal0 lump0 balance interest emi).1 +
      (clampPayment principal0 lump0 balance interest emi).2.1 ≤
        max balance (principal0 + lump0) ∧
    (0 ≤ principal0 → 0 ≤ lump0 → 0 ≤ balance →
      0 ≤ (clampPayment principal0 lump0 balance interest emi).1 ∧
      0 ≤ (clampPayment principal0 lump0 balance interest emi).2.1) ∧
    (principal0 + lump0 > balance → 0 ≤ balance →
      0 ≤ (clampPayment principal0 lump0 balance interest emi).1) := by
  unfold clampPayment
  split_ifs with h h2
  · refine ⟨fun _ => ⟨by simp, rfl⟩, fun hc => absurd h hc, ?_, ?_, ?_⟩
    · simpa using le_max_left balance (principal0 + lump0)
    · intro _ _ hb
      exact ⟨le_rfl, hb⟩
    · intro _ _
      exact le_rfl
  · refine ⟨fun _ => ⟨by simp only; ring, rfl⟩, fun hc => absurd h hc, ?_, ?_, ?_⟩
    · have hbl : balance - lump0 + lump0 = balance := by ring
      simp only [hbl]
      exact le_max_left _ _
    · intro _ hl _
      exact ⟨show (0:ℚ) ≤ balance - lump0 by linarith [not_lt.1 h2], hl⟩
    · intro _ _
      exact show (0:ℚ) ≤ balance - lump0 by linarith [not_lt.1 h2]
  · refine ⟨fun hc => absurd hc h, fun _ => rfl, ?_, ?_, ?_⟩
    · exact le_max_right _ _
    · intro hp hl _
      exact ⟨hp, hl⟩
    · intro hc _
      exact absurd hc h

/-- Inversion of a successful loop iteration. -/
theorem simLoop_ok_inv {r : ℚ} {lumps : List (Nat × ℚ)} {fuel : Nat}
    {emi balance : ℚ} {month : Nat} {es : List RawEntry}
    (hok : simLoop r lumps (fuel + 1) emi balance month = .ok es) :
    (balance ≤ 0 ∧ es = []) ∨
    (0 < balance ∧ ¬ emi < balance * r ∧
      ∃ rest, es =
        { month := month + 1,
          emi := (clampPayment (emi - balance * r) (lumpGet lumps (month + 1)) balance
            (balance * r) emi).2.2,
          lumpSum := (clampPayment (emi - balance * r) (lumpGet lumps (month + 1)) balance
            (balance * r) emi).2.1,
          interest := balance * r,
          principal := (clampPayment (emi - balance * r) (lumpGet lumps (month + 1)) balance
            (balance * r) emi).1,
          balance := if balance - ((clampPayment (emi - balance * r)
              (lumpGet lumps (month + 1)) balance (balance * r) emi).1 +
              (clampPayment (emi - balance * r) (lumpGet lumps (month + 1)) balance
                (balance * r) emi).2.1) > 0 then
            balance - ((clampPayment (emi - balance * r) (lumpGet lumps (month + 1)) balance
              (balance * r) emi).1 + (clampPayment (emi - balance * r)
              (lumpGet lumps (month + 1)) balance (balance * r) emi).2.1)
          else 0 } :: rest ∧
      ((balance - ((clampPayment (emi - balance * r) (lumpGet lumps (month + 1)) balance
          (balance * r) emi).1 + (clampPayment (emi - balance * r)
          (lumpGet lumps (month + 1)) balance (balance * r) emi).2.1) ≤ 0 ∧ rest = []) ∨
       (0 < balance - ((clampPayment (emi - balance * r) (lumpGet lumps (month + 1)) balance
          (balance * r) emi).1 + (clampPayment (emi - balance * r)
          (lumpGet lumps (month + 1)) balance (balance * r) emi).2.1) ∧
        simLoop r lumps fuel
          (clampPayment (emi - balance * r) (lumpGet lumps (month + 1)) balance
            (balance * r) emi).2.2
          (balance - ((clampPayment (emi - balance * r) (lumpGet lumps (month + 1)) balance
            (balance * r) emi).1 + (clampPayment (emi - balance * r)
            (lumpGet lumps (month + 1)) balance (balance * r) emi).2.1))
          (month + 1) = .ok rest))) := by
  rw [simLoop_succ] at hok
  by_cases h1 : balance ≤ 0
  · rw [if_pos h1] at hok
    exact Or.inl ⟨h1, by simp at hok; exact hok⟩
  · rw [if_neg h1] at hok
    by_cases h2 : emi < balance * r
    · rw [if_pos h2] at hok
      exact absurd hok (by simp)
    · rw [if_neg h2] at hok
      refine Or.inr ⟨by linarith [not_le.1 h1], h2, ?_⟩
      dsimp only at hok
      by_cases h3 : balance - ((clampPayment (emi - balance * r)
          (lumpGet lumps (month + 1)) balance (balance * r) emi).1 +
          (clampPayment (emi - balance * r) (lumpGet lumps (month + 1)) balance
            (balance * r) emi).2.1) ≤ 0
      · rw [if_pos h3] at hok
        injection hok.symm with h4
        exact ⟨[], h4, Or.inl ⟨h3, rfl⟩⟩
      · rw [if_neg h3] at hok
        rcases hrec : simLoop r lumps fuel
            (clampPayment (emi - balance * r) (lumpGet lumps (month + 1)) balance
              (balance * r) emi).2.2
            (balance - ((clampPayment (emi - balance * r) (lumpGet lumps (month + 1)) balance
              (balance * r) emi).1 + (clampPayment (emi - balance * r)
              (lumpGet lumps (month + 1)) balance (balance * r) emi).2.1))
            (month + 1) with e | rest
        · rw [hrec] at hok
          exact absurd hok (by simp)
        · rw [hrec] at hok
          injection hok.symm with h4
          exact ⟨rest, h4, Or.inr ⟨by linarith [not_le.1 h3], by first | exact hrec | rfl⟩⟩

/-- The reported balance before any entries, or after the last entry. -/
def lastBalance (dflt : ℚ) : List RawEntry → ℚ
  | [] => dflt
  | e :: rest => lastBalance e.balance rest

/-- Per-entry loop relation: each entry's interest is the previous balance
times the monthly rate, and its reported balance is the previous balance minus
the reported principal paid (`principal + lumpSum`). -/
def entryChain (r : ℚ) : ℚ → List RawEntry → Prop
  | _, [] => True
  | prev, e :: rest => e.interest = prev * r ∧
      e.balance = prev - (e.principal + e.lumpSum) ∧ entryChain r e.balance rest

/-- Month indices are consecutive starting at `m`. -/
def monthsFrom : Nat → List RawEntry → Prop
  | _, [] => True
  | m, e :: rest => e.month = m ∧ monthsFrom (m + 1) rest

/-- Structural facts about every successful run of the loop: the entries
satisfy the per-month relation, months are consecutive, every reported balance
is non-negative, interest never exceeds the reported EMI, principals are
non-negative, every month before the last has positive balance, a run that
stops before exhausting the fuel ends at balance zero, the run is never longer
than the fuel, and a run started with positive balance and fuel is non-empty. -/
theorem simLoop_ok_facts (r : ℚ) (lumps : List (Nat × ℚ)) :
    ∀ fuel emi balance month es,
    simLoop r lumps fuel emi balance month = .ok es →
    entryChain r balance es ∧
    monthsFrom (month + 1) es ∧
    (∀ e ∈ es, 0 ≤ e.balance ∧ e.interest ≤ e.emi ∧ 0 ≤ e.principal) ∧
    (∀ es₁ e es₂, es = es₁ ++ e :: es₂ → es₂ ≠ [] → 0 < e.balance) ∧
    (es.length < fuel → es ≠ [] → lastBalance balance es = 0) ∧
    es.length ≤ fuel ∧
    (0 < balance → 0 < fuel → es ≠ []) := by
  intro fuel
  induction fuel with
  | zero =>
    intro emi balance month es hok
    have hes : es = [] := by
      rw [simLoop] at hok
      injection hok with h
      exact h.symm
    subst hes
    exact ⟨trivial, trivial, by simp, by simp, by simp, by simp, by simp⟩
  | succ n ih =>
    intro emi balance month es hok
    rcases simLoop_ok_inv hok with ⟨hb, hes⟩ | ⟨hb, hemi, rest, hes, hcase⟩
    · subst hes
      refine ⟨trivial, trivial, by simp, by simp, by simp, by simp, ?_⟩
      intro hbal _
      exact absurd hb (by linarith)
    · have hfacts := clampPayment_facts (emi - balance * r) (lumpGet lumps (month + 1))
        balance (balance * r) emi
      set c := clampPayment (emi - balance * r) (lumpGet lumps (month + 1)) balance
        (balance * r) emi with hc
      -- the clamped principal is non-negative
      have hp1 : 0 ≤ c.1 := by
        by_cases hcl : emi - balance * r + lumpGet lumps (month + 1) > balance
        · exact hfacts.2.2.2.2 hcl (by linarith)
        · rw [hfacts.2.1 hcl]
          simp only
          linarith [not_lt.1 hemi]
      -- the payment never overshoots: the next balance is non-negative
      have hb1 : 0 ≤ balance - (c.1 + c.2.1) := by
        by_cases hcl : emi - balance * r + lumpGet lumps (month + 1) > balance
        · rw [(hfacts.1 hcl).1]
          simp
        · rw [hfacts.2.1 hcl]
          simp only
          linarith [not_lt.1 hcl]
      -- the reported balance is the exact next balance
      have hrep : (if balance - (c.1 + c.2.1) > 0 then balance - (c.1 + c.2.1) else 0) =
          balance - (c.1 + c.2.1) := by
        by_cases hpos : balance - (c.1 + c.2.1) > 0
        · rw [if_pos hpos]
        · rw [if_neg hpos]
          linarith [not_lt.1 hpos]
      -- the reported EMI covers the interest
      have hemi1 : balance * r ≤ c.2.2 := by
        by_cases hcl : emi - balance * r + lumpGet lumps (month + 1) > balance
        · rw [(hfacts.1 hcl).2]
          linarith
        · rw [hfacts.2.1 hcl]
          simp only
          linarith [not_lt.1 hemi]
      rcases hcase with ⟨hstop, hrest⟩ | ⟨hpos, hrec⟩
      · subst hrest
        subst hes
        have hz : balance - (c.1 + c.2.1) = 0 := le_antisymm hstop hb1
        refine ⟨⟨rfl, by simp only [hrep], trivial⟩, ⟨rfl, trivial⟩, ?_, ?_, ?_, by simp, ?_⟩
        · intro e he
          simp only [List.mem_singleton] at he
          subst he
          refine ⟨?_, hemi1, hp1⟩
          simp only [hrep, hz]
          exact le_rfl
        · intro es₁ e es₂ heq hne
          have hlen := congrArg List.length heq
          have hne' := List.length_pos.2 hne
          simp at hlen
          omega
        · intro _ _
          show (if balance - (c.1 + c.2.1) > 0 then balance - (c.1 + c.2.1) else 0) = 0
          rw [hrep, hz]
        · intro _ _
          simp
      · obtain ⟨ihchain, ihmonths, ihmem, ihsplit, ihlast, ihlen, ihne⟩ :=
          ih c.2.2 (balance - (c.1 + c.2.1)) (month + 1) rest hrec
        subst hes
        refine ⟨⟨rfl, by simp only [hrep], by simp only [hrep]; exact ihchain⟩,
          ⟨rfl, ihmonths⟩, ?_, ?_, ?_, ?_, ?_⟩
        · intro e he
          rcases List.mem_cons.1 he with he | he
          · subst he
            refine ⟨?_, hemi1, hp1⟩
            simp only [hrep]
            exact hb1
          · exact ihmem e he
        · intro es₁ e es₂ heq hne
          rcases es₁ with _ | ⟨e1, es₁⟩
          · simp only [List.nil_append, List.cons.injEq] at heq
            rcases heq with ⟨heq1, heq2⟩
            subst heq1
            simp only [hrep]
            linarith
          · simp only [List.cons_append, List.cons.injEq] at heq
            exact ihsplit es₁ e es₂ heq.2 hne
        · intro hlen hne
          simp only [List.length_cons] at hlen
          have hrne : rest ≠ [] := ihne hpos (by omega)
          have hl2 := ihlast (by omega) hrne
          show lastBalance (if balance - (c.1 + c.2.1) > 0 then balance - (c.1 + c.2.1)
            else 0) rest = 0
          rw [hrep]
          exact hl2
        · simpa using Nat.succ_le_succ ihlen
        · intro _ _
          simp

/-- With non-negative configured lump sums, every looked-up lump sum is
non-negative. -/
theorem lumpGet_nonneg {lumps : List (Nat × ℚ)} (hl : ∀ p ∈ lumps, 0 ≤ p.2) (m : Nat) :
    0 ≤ lumpGet lumps m := by
  rw [lumpGet]
  cases hlk : lumps.lookup m with
  | none => simp
  | some v =>
    have := hl _ (Difflib.lookup_mem hlk)
    simpa using this

/-- Telescoping: over every chained schedule, the reported principal payments
(`principal + lumpSum`) sum to the starting balance minus the final balance. -/
theorem entryChain_sum {r : ℚ} :
    ∀ (es : List RawEntry) (prev : ℚ), entryChain r prev es →
    ((es.map (fun e => e.principal + e.lumpSum)).sum) = prev - lastBalance prev es := by
  intro es
  induction es with
  | nil => intro prev _; simp [lastBalance]
  | cons e rest ih =>
    intro prev hchain
    have h1 := hchain.2.1
    have h2 := ih e.balance hchain.2.2
    simp only [List.map_cons, List.sum_cons, lastBalance]
    rw [h2]
    linarith

/-- When the EMI cannot cover the current month's interest, the loop raises the
non-amortizing error at that month. -/
theorem simLoop_nonAmortizing {r : ℚ} {lumps : List (Nat × ℚ)} {fuel : Nat}
    {emi balance : ℚ} {month : Nat} (hf : 0 < fuel) (hb : 0 < balance)
    (he : emi < balance * r) :
    simLoop r lumps fuel emi balance month = .error .nonAmortizing := by
  rcases fuel with _ | n
  · omega
  · rw [simLoop_succ, if_neg (by linarith), if_pos he]

/-- Under the contract (non-negative rate and lump sums, EMI at least the
interest on any balance up to `B0`), the loop never raises: it returns a
schedule. -/
theorem simLoop_ok_of_bounded {r : ℚ} {lumps : List (Nat × ℚ)} {B0 : ℚ}
    (hr : 0 ≤ r) (hl : ∀ p ∈ lumps, 0 ≤ p.2) :
    ∀ fuel (emi balance : ℚ) (month : Nat), 0 ≤ balance → balance ≤ B0 →
    B0 * r ≤ emi →
    ∃ es, simLoop r lumps fuel emi balance month = .ok es := by
  intro fuel
  induction fuel with
  | zero => intro emi balance month _ _ _; exact ⟨[], rfl⟩
  | succ n ih =>
    intro emi balance month hb0 hbB hemi
    by_cases h1 : balance ≤ 0
    · exact ⟨[], by rw [simLoop_succ, if_pos h1]⟩
    · have hint : balance * r ≤ emi :=
        le_trans (mul_le_mul_of_nonneg_right hbB hr) hemi
      have hfacts := clampPayment_facts (emi - balance * r) (lumpGet lumps (month + 1))
        balance (balance * r) emi
      set c := clampPayment (emi - balance * r) (lumpGet lumps (month + 1)) balance
        (balance * r) emi with hc
      have hp1 : 0 ≤ c.1 ∧ 0 ≤ c.2.1 :=
        hfacts.2.2.2.1 (by linarith) (lumpGet_nonneg hl _) (by linarith)
      have hb1 : 0 ≤ balance - (c.1 + c.2.1) := by
        by_cases hcl : emi - balance * r + lumpGet lumps (month + 1) > balance
        · rw [(hfacts.1 hcl).1]
          simp
        · rw [hfacts.2.1 hcl]
          simp only
          linarith [not_lt.1 hcl]
      by_cases h2 : balance - (c.1 + c.2.1) ≤ 0
      · refine ⟨[
          { month := month + 1, emi := c.2.2, lumpSum := c.2.1,
            interest := balance * r, principal := c.1,
            balance := (if balance - (c.1 + c.2.1) > 0 then balance - (c.1 + c.2.1)
              else 0) }], ?_⟩
        rw [simLoop_succ, if_neg h1, if_neg (not_lt.2 hint)]
        dsimp only
        rw [← hc, if_pos h2]
      · -- the clamp cannot have fired (it zeroes the balance), so the EMI is unchanged
        have hncl : ¬ emi - balance * r + lumpGet lumps (month + 1) > balance := by
          intro hcl
          rw [(hfacts.1 hcl).1] at h2
          simp at h2
        have hceq := hfacts.2.1 hncl
        have hemi2 : c.2.2 = emi := by rw [hceq]
        obtain ⟨rest, hrest⟩ := ih c.2.2 (balance - (c.1 + c.2.1)) (month + 1)
          (by linarith) (by linarith) (by rw [hemi2]; exact hemi)
        refine ⟨
          { month := month + 1, emi := c.2.2, lumpSum := c.2.1,
            interest := balance * r, principal := c.1,
            balance := (if balance - (c.1 + c.2.1) > 0 then balance - (c.1 + c.2.1)
              else 0) } :: rest, ?_⟩
        rw [simLoop_succ, if_neg h1, if_neg (not_lt.2 hint)]
        dsimp only
        rw [← hc, if_neg h2, hrest]

/-- Under the clamp condition, the clamp's exact result. -/
theorem clampPayment_clamp_eq {principal0 lump0 balance interest emi : ℚ}
    (h : principal0 + lump0 > balance) :
    clampPayment principal0 lump0 balance interest emi =
      if balance - lump0 < 0 then (0, balance, interest + 0)
      else (balance - lump0, lump0, interest + (balance - lump0)) := by
  unfold clampPayment
  rw [if_pos h]

/-- The clamp characterization: if at some month of a successful run the
scheduled principal plus that month's lump sum exceeds the balance before the
month, then that month is the last of the schedule, its balance is exactly
zero, its reported EMI is `interest + principal`, its principal and lump sum
are clamped as in the source, and every earlier entry's reported EMI is the
scheduled EMI unchanged. -/
theorem simLoop_clamp_final {r : ℚ} {lumps : List (Nat × ℚ)} :
    ∀ (fuel : Nat) (emi balance : ℚ) (month : Nat) (es₁ : List RawEntry) (e : RawEntry)
      (es₂ : List RawEntry),
    simLoop r lumps fuel emi balance month = .ok (es₁ ++ e :: es₂) →
    (emi - lastBalance balance es₁ * r) + lumpGet lumps (month + es₁.length + 1) >
      lastBalance balance es₁ →
    es₂ = [] ∧ e.balance = 0 ∧ e.emi = e.interest + e.principal ∧
    e.interest = lastBalance balance es₁ * r ∧
    e.principal = (if lastBalance balance es₁ -
        lumpGet lumps (month + es₁.length + 1) < 0 then 0
      else lastBalance balance es₁ - lumpGet lumps (month + es₁.length + 1)) ∧
    e.lumpSum = (if lastBalance balance es₁ -
        lumpGet lumps (month + es₁.length + 1) < 0 then lastBalance balance es₁
      else lumpGet lumps (month + es₁.length + 1)) ∧
    (∀ e' ∈ es₁, e'.emi = emi) := by
  intro fuel
  induction fuel with
  | zero =>
    intro emi balance month es₁ e es₂ hok
    rw [simLoop] at hok
    injection hok with h
    exact absurd h (by simp)
  | succ n ih =>
    intro emi balance month es₁ e es₂ hok hcond
    rcases simLoop_ok_inv hok with ⟨hb, hes⟩ | ⟨hb, hemi, rest, hes, hcase⟩
    · exact absurd hes (by simp)
    · have hfacts := clampPayment_facts (emi - balance * r) (lumpGet lumps (month + 1))
        balance (balance * r) emi
      set c := clampPayment (emi - balance * r) (lumpGet lumps (month + 1)) balance
        (balance * r) emi with hc
      rcases es₁ with _ | ⟨e1, es₁⟩
      · simp only [List.nil_append, List.cons.injEq] at hes
        rcases hes with ⟨he, hrest⟩
        simp only [lastBalance, List.length_nil] at hcond ⊢
        have hcl : emi - balance * r + lumpGet lumps (month + 1) > balance := by
          have : month + 0 + 1 = month + 1 := by omega
          rw [this] at hcond
          exact hcond
        have hz : c.1 + c.2.1 = balance := (hfacts.1 hcl).1
        have hb1 : balance - (c.1 + c.2.1) = 0 := by rw [hz]; ring
        have hes2 : es₂ = [] := by
          rcases hcase with ⟨_, h⟩ | ⟨hpos, _⟩
          · exact hrest.trans h
          · rw [hb1] at hpos
            exact absurd hpos (by simp)
        subst he
        refine ⟨hes2, ?_, ?_, rfl, ?_, ?_, by simp⟩
        · simp only [hb1]
          simp
        · show c.2.2 = balance * r + c.1
          exact (hfacts.1 hcl).2
        · show c.1 = _
          rw [hc, clampPayment_clamp_eq hcl]
          have : month + 0 + 1 = month + 1 := by omega
          rw [this]
          split <;> rfl
        · show c.2.1 = _
          rw [hc, clampPayment_clamp_eq hcl]
          have : month + 0 + 1 = month + 1 := by omega
          rw [this]
          split <;> rfl
      · simp only [List.cons_append, List.cons.injEq] at hes
        rcases hes with ⟨he1, hrest⟩
        have hrestne : rest ≠ [] := by
          rw [← hrest]
          simp
        rcases hcase with ⟨_, h⟩ | ⟨hpos, hrec⟩
        · exact absurd h hrestne
        · have hncl : ¬ emi - balance * r + lumpGet lumps (month + 1) > balance := by
            intro hcl
            rw [(hfacts.1 hcl).1] at hpos
            simp at hpos
          have hceq := hfacts.2.1 hncl
          have hemi2 : c.2.2 = emi := by rw [hceq]
          have hrep : (if balance - (c.1 + c.2.1) > 0 then balance - (c.1 + c.2.1) else 0) =
              balance - (c.1 + c.2.1) := by
            rw [if_pos hpos]
          rw [← hrest] at hrec
          rw [hemi2] at hrec
          have hlast : lastBalance balance (e1 :: es₁) =
              lastBalance (balance - (c.1 + c.2.1)) es₁ := by
            show lastBalance e1.balance es₁ = _
            rw [he1]
            show lastBalance (if balance - (c.1 + c.2.1) > 0 then balance - (c.1 + c.2.1)
              else 0) es₁ = _
            rw [hrep]
          have harg : month + (e1 :: es₁).length + 1 = (month + 1) + es₁.length + 1 := by
            simp only [List.length_cons]
            omega
          rw [hlast, harg] at hcond
          obtain ⟨h1, h2, h3, h4, h5, h6, h7⟩ := ih emi (balance - (c.1 + c.2.1))
            (month + 1) es₁ e es₂ hrec hcond
          refine ⟨h1, h2, h3, by rw [hlast]; exact h4, by rw [hlast, harg]; exact h5,
            by rw [hlast, harg]; exact h6, ?_⟩
          intro e' he'
          rcases List.mem_cons.1 he' with he' | he'
          · subst he'
            rw [he1]
            show c.2.2 = emi
            exact hemi2
          · exact h7 e' he'

/-- Closed form for a zero-rate run with no lump sums that does not pay off
within the fuel: every month pays `e` of principal, and after month `k` the
balance is `b - k*e`. -/
theorem simLoop_zero_rate :
    ∀ (fuel : Nat) (e b : ℚ) (m : Nat), 0 < e → (fuel : ℚ) * e < b →
    simLoop 0 [] fuel e b m = .ok ((List.range fuel).map
      (fun k => ⟨m + k + 1, e, 0, 0, e, b - (k + 1) * e⟩)) := by
  intro fuel
  induction fuel with
  | zero => intro e b m _ _; simp [simLoop]
  | succ n ih =>
    intro e b m he hfb
    have hb : 0 < b := by
      have : (0:ℚ) ≤ (n + 1 : ℚ) * e := by positivity
      push_cast at hfb
      linarith
    have hne : e < b := by
      have h1 : (1:ℚ) ≤ ((n:ℚ) + 1) := by
        have : (0:ℚ) ≤ (n:ℚ) := by positivity
        linarith
      have : e ≤ ((n:ℚ) + 1) * e := le_mul_of_one_le_left (le_of_lt he) h1
      push_cast at hfb
      linarith
    have hstep := ih e (b - e) (m + 1) he (by push_cast at hfb ⊢; linarith)
    rw [simLoop_succ, if_neg (by linarith), if_neg (by simp; linarith)]
    dsimp only
    have hlump : lumpGet [] (m + 1) = 0 := by simp [lumpGet, List.lookup]
    have hcl : ¬ (e - b * 0 + lumpGet [] (m + 1) > b) := by
      rw [hlump]
      simp
      linarith
    rw [show clampPayment (e - b * 0) (lumpGet [] (m + 1)) b (b * 0) e =
      (e - b * 0, lumpGet [] (m + 1), e) from
      (clampPayment_facts (e - b * 0) (lumpGet [] (m + 1)) b (b * 0) e).2.1 hcl]
    simp only [hlump]
    rw [if_neg (by simp; linarith)]
    have harg1 : b - (e - b * 0 + 0) = b - e := by ring
    rw [harg1, hstep]
    simp only [List.range_succ_eq_map, List.map_cons, List.map_map]
    rw [if_pos (show b - e > 0 from by linarith)]
    simp only [Except.ok.injEq, List.cons.injEq, RawEntry.mk.injEq]
    constructor
    · and_intros <;> first | trivial | omega | (push_cast; ring)
    · refine List.map_congr_left ?_
      intro k _
      simp only [Function.comp, RawEntry.mk.injEq]
      and_intros <;> first | trivial | omega | (push_cast; ring)

/-- If the EMI strictly dominates the interest on any balance up to `P0` and a
sequence `c` follows the unclamped recurrence with `c n = 0`, then the loop
(started at any `balance ≤ c j`) succeeds and takes at most `n - j` further
months. -/
theorem simLoop_target {r : ℚ} {lumps : List (Nat × ℚ)} (hr : 0 ≤ r)
    (hl : ∀ p ∈ lumps, 0 ≤ p.2) {P0 emi : ℚ} (hemi : P0 * r < emi)
    (c : Nat → ℚ) (hcstep : ∀ k, c (k + 1) = c k * (1 + r) - emi)
    {n : Nat} (hcn : c n = 0) :
    ∀ (fuel j : Nat) (balance : ℚ) (month : Nat), j ≤ n → 0 ≤ balance → balance ≤ P0 →
    balance ≤ c j →
    ∃ es, simLoop r lumps fuel emi balance month = .ok es ∧ es.length ≤ n - j := by
  intro fuel
  induction fuel with
  | zero => intro j balance month _ _ _ _; exact ⟨[], rfl, by simp⟩
  | succ nf ih =>
    intro j balance month hj hb0 hbP hbc
    by_cases h1 : balance ≤ 0
    · exact ⟨[], by rw [simLoop_succ, if_pos h1], by simp⟩
    · have hbpos : 0 < balance := by linarith
      have hjn : j < n := by
        rcases Nat.lt_or_ge j n with h | h
        · exact h
        · have : j = n := by omega
          subst this
          rw [hcn] at hbc
          linarith
      have hint : balance * r < emi :=
        lt_of_le_of_lt (mul_le_mul_of_nonneg_right hbP hr) hemi
      have hfacts := clampPayment_facts (emi - balance * r) (lumpGet lumps (month + 1))
        balance (balance * r) emi
      set cc := clampPayment (emi - balance * r) (lumpGet lumps (month + 1)) balance
        (balance * r) emi with hcc
      have hp1 : 0 ≤ cc.1 ∧ 0 ≤ cc.2.1 :=
        hfacts.2.2.2.1 (by linarith) (lumpGet_nonneg hl _) (by linarith)
      have hb1 : 0 ≤ balance - (cc.1 + cc.2.1) := by
        by_cases hcl : emi - balance * r + lumpGet lumps (month + 1) > balance
        · rw [(hfacts.1 hcl).1]
          simp
        · rw [hfacts.2.1 hcl]
          simp only
          linarith [not_lt.1 hcl]
      by_cases h2 : balance - (cc.1 + cc.2.1) ≤ 0
      · refine ⟨[
          { month := month + 1, emi := cc.2.2, lumpSum := cc.2.1,
            interest := balance * r, principal := cc.1,
            balance := (if balance - (cc.1 + cc.2.1) > 0 then balance - (cc.1 + cc.2.1)
              else 0) }], ?_, ?_⟩
        · rw [simLoop_succ, if_neg h1, if_neg (not_lt.2 (le_of_lt hint))]
          dsimp only
          rw [← hcc, if_pos h2]
        · simp only [List.length_singleton]
          omega
      · have hncl : ¬ emi - balance * r + lumpGet lumps (month + 1) > balance := by
          intro hcl
          rw [(hfacts.1 hcl).1] at h2
          simp at h2
        have hceq := hfacts.2.1 hncl
        have hemi2 : cc.2.2 = emi := by rw [hceq]
        have hlnn : 0 ≤ lumpGet lumps (month + 1) := lumpGet_nonneg hl _
        have hnext : balance - (cc.1 + cc.2.1) ≤ c (j + 1) := by
          rw [hceq]
          simp only
          have hmul : balance * (1 + r) ≤ c j * (1 + r) :=
            mul_le_mul_of_nonneg_right hbc (by linarith)
          rw [hcstep j]
          nlinarith
        obtain ⟨es, hes, hlen⟩ := ih (j + 1) (balance - (cc.1 + cc.2.1)) (month + 1)
          (by omega) (by linarith) (by linarith) hnext
        refine ⟨
          { month := month + 1, emi := cc.2.2, lumpSum := cc.2.1,
            interest := balance * r, principal := cc.1,
            balance := (if balance - (cc.1 + cc.2.1) > 0 then balance - (cc.1 + cc.2.1)
              else 0) } :: es, ?_, ?_⟩
        · rw [simLoop_succ, if_neg h1, if_neg (not_lt.2 (le_of_lt hint))]
          dsimp only
          rw [← hcc, if_neg h2, hemi2, hes]
        · simp only [List.length_cons]
          omega

/-- The unclamped balance recurrence of the loop: interest accrues on the
balance and the EMI is paid. -/
def annuitySeq (P emi r : ℚ) : Nat → ℚ
  | 0 => P
  | k + 1 => annuitySeq P emi r k * (1 + r) - emi

theorem annuitySeq_closed {P emi r : ℚ} (hr : r ≠ 0) :
    ∀ k, annuitySeq P emi r k = (P - emi / r) * (1 + r) ^ k + emi / r := by
  intro k
  induction k with
  | zero => simp [annuitySeq]
  | succ m ih =>
    rw [annuitySeq, ih]
    field_simp
    ring

/-- With the back-solved EMI, the unclamped balance is exactly zero after
`target_months` months (positive-rate case). -/
theorem annuitySeq_emi_zero {P r : ℚ} {n : Nat} (hr : 0 < r) (hn : n ≠ 0) :
    annuitySeq P (calculate_emi P r n) r n = 0 := by
  have hA : 1 < (1 + r) ^ n := one_lt_pow₀ (by linarith) hn
  rw [annuitySeq_closed (ne_of_gt hr), calculate_emi, if_neg (ne_of_gt hr)]
  have h1 : (1 + r) ^ n - 1 ≠ 0 := by linarith
  have h2 : r ≠ 0 := ne_of_gt hr
  field_simp
  ring

/-- The back-solved EMI strictly exceeds the first month's interest `P * r`. -/
theorem calculate_emi_gt {P r : ℚ} {n : Nat} (hP : 0 < P) (hr : 0 ≤ r) (hn : 0 < n) :
    P * r < calculate_emi P r n := by
  rw [calculate_emi]
  by_cases hz : r = 0
  · rw [if_pos hz, hz]
    simp only [mul_zero]
    positivity
  · rw [if_neg hz]
    have hrpos : 0 < r := lt_of_le_of_ne hr (Ne.symm hz)
    have hA : 1 < (1 + r) ^ n := one_lt_pow₀ (by linarith) (by omega)
    rw [lt_div_iff₀ (by linarith : (0:ℚ) < (1 + r) ^ n - 1)]
    have hPr : 0 < P * r := by positivity
    nlinarith

/-- Inversion of `simulate_loan`: a successful simulation is a successful,
non-empty run of the loop at the monthly rate, with the EMI either given or
back-solved from `target_months`. -/
theorem simulate_loan_ok_inv {P rate : ℚ} {emi? : Option ℚ} {lumps : List (Nat × ℚ)}
    {target? : Option Nat} {es : List RawEntry}
    (hok : simulate_loan P rate emi? lumps target? = .ok es) :
    ∃ e0, simLoop (rate / 12 / 100) lumps MAX_MONTHS e0 P 0 = .ok es ∧ es ≠ [] ∧
      (emi? = some e0 ∨
        (emi? = none ∧ ∃ n, target? = some n ∧
          e0 = calculate_emi P (rate / 12 / 100) n)) := by
  rw [simulate_loan.eq_def] at hok
  rcases emi? with _ | e
  · rcases target? with _ | n
    · exact absurd hok (by simp)
    · dsimp only at hok
      rcases hrun : simLoop (rate / 12 / 100) lumps MAX_MONTHS
          (calculate_emi P (rate / 12 / 100) n) P 0 with err | sched
      · rw [hrun] at hok
        exact absurd hok (by simp)
      · rw [hrun] at hok
        dsimp only at hok
        by_cases hnil : sched = []
        · rw [if_pos hnil] at hok
          exact absurd hok (by simp)
        · rw [if_neg hnil] at hok
          injection hok with h
          subst h
          exact ⟨_, hrun, hnil, Or.inr ⟨rfl, n, rfl, rfl⟩⟩
  · dsimp only at hok
    rcases hrun : simLoop (rate / 12 / 100) lumps MAX_MONTHS e P 0 with err | sched
    · rw [hrun] at hok
      exact absurd hok (by simp)
    · rw [hrun] at hok
      dsimp only at hok
      by_cases hnil : sched = []
      · rw [if_pos hnil] at hok
        exact absurd hok (by simp)
      · rw [if_neg hnil] at hok
        injection hok with h
        subst h
        exact ⟨e, hrun, hnil, Or.inl rfl⟩

/-- Assembling a successful `simulate_loan` from a successful non-empty loop
run with a given EMI. -/
theorem simulate_loan_ok_intro {P rate : ℚ} {e : ℚ} {lumps : List (Nat × ℚ)}
    {target? : Option Nat} {es : List RawEntry}
    (hrun : simLoop (rate / 12 / 100) lumps MAX_MONTHS e P 0 = .ok es)
    (hne : es ≠ []) :
    simulate_loan P rate (some e) lumps target? = .ok es := by
  rw [simulate_loan.eq_def]
  dsimp only
  rw [hrun]
  simp [hne]

/-- Assembling a successful `simulate_loan` in the back-solved (`target_months`)
mode. -/
theorem simulate_loan_target_intro {P rate : ℚ} {lumps : List (Nat × ℚ)} {n : Nat}
    {es : List RawEntry}
    (hrun : simLoop (rate / 12 / 100) lumps MAX_MONTHS
      (calculate_emi P (rate / 12 / 100) n) P 0 = .ok es)
    (hne : es ≠ []) :
    simulate_loan P rate none lumps (some n) = .ok es := by
  rw [simulate_loan.eq_def]
  dsimp only
  rw [hrun]
  simp [hne]

/-- Sum over the schedule of the reported principal paid (which includes the
lump sums). -/
def sumPrincipalPaid (es : List RawEntry) : ℚ := (es.map (fun e => e.principal + e.lumpSum)).sum

/-- Sum over the schedule of the lump sums paid. -/
def sumLumpSums (es : List RawEntry) : ℚ := (es.map (fun e => e.lumpSum)).sum

/-- The final reported balance is one of the schedule's reported balances. -/
theorem lastBalance_mem : ∀ (es : List RawEntry) (d : ℚ), es ≠ [] →
    ∃ e ∈ es, lastBalance d es = e.balance := by
  intro es
  induction es with
  | nil => intro d h; exact absurd rfl h
  | cons e rest ih =>
    intro d _
    rcases rest with _ | ⟨e2, rest⟩
    · exact ⟨e, by simp, rfl⟩
    · obtain ⟨e', he', hb⟩ := ih e.balance (by simp)
      exact ⟨e', by simp [he'], hb⟩

/-- The closed form of a zero-rate, no-lump-sum simulation that cannot pay off
within the ceiling: all 1200 months are simulated and returned. -/
theorem zeroRate_truncated_run (P e : ℚ) (he : 0 < e) (hPe : (MAX_MONTHS : ℚ) * e < P) :
    simulate_loan P 0 (some e) [] none =
      .ok ((List.range MAX_MONTHS).map
        (fun k => ⟨k + 1, e, 0, 0, e, P - (k + 1) * e⟩)) := by
  have hr0 : (0:ℚ) / 12 / 100 = 0 := by norm_num
  have hrun := simLoop_zero_rate MAX_MONTHS e P 0 he hPe
  refine simulate_loan_ok_intro ?_ ?_
  · rw [hr0]
    simpa using hrun
  · simp [MAX_MONTHS]

/-- C1 (amended): for every positive `loan_amount`, `annual_interest_rate ≥ 0`,
non-negative lump sums, and positive `emi` at least the first month's interest
`loan_amount * rate/12/100`, the simulation succeeds with a non-empty schedule,
the reported balances never go negative, the sum of the reported principal paid
(which already includes the lump sums) equals `loan_amount` minus the final
reported balance, and the final balance is 0 whenever payoff occurs before the
1200-month ceiling (with `emi` exactly equal to the first month's interest the
balance never falls and the ceiling is reached instead). -/
theorem C1_payoff_and_principal_sum (P rate emi : ℚ) (lumps : List (Nat × ℚ))
    (hP : 0 < P) (hrate : 0 ≤ rate) (hemi : 0 < emi)
    (hfirst : P * (rate / 12 / 100) ≤ emi) (hl : ∀ p ∈ lumps, 0 ≤ p.2) :
    ∃ es, simulate_loan P rate (some emi) lumps none = .ok es ∧ es ≠ [] ∧
      sumPrincipalPaid es = P - lastBalance P es ∧
      (∀ ent ∈ es, 0 ≤ ent.balance) ∧ 0 ≤ lastBalance P es ∧
      (es.length < MAX_MONTHS → lastBalance P es = 0) := by
  have hr : 0 ≤ rate / 12 / 100 := by positivity
  obtain ⟨es, hok⟩ := simLoop_ok_of_bounded hr hl MAX_MONTHS emi P 0
    (le_of_lt hP) le_rfl hfirst
  obtain ⟨hchain, _, hmem, _, hlast, _, hne⟩ :=
    simLoop_ok_facts (rate / 12 / 100) lumps MAX_MONTHS emi P 0 es hok
  have hne' := hne hP (by norm_num [MAX_MONTHS])
  obtain ⟨e', he', hb'⟩ := lastBalance_mem es P hne'
  refine ⟨es, simulate_loan_ok_intro hok hne', hne',
    entryChain_sum es P hchain, fun ent hent => (hmem ent hent).1, ?_,
    fun hlt => hlast hlt hne'⟩
  rw [hb']
  exact (hmem e' he').1

/-- C2: whenever the EMI is strictly below a month's interest the simulation
fails with the non-amortizing error — concretely, the check fires at the first
month when `emi < loan_amount * rate/12/100` — and dually no successful
schedule contains a month whose reported EMI is below its interest. -/
theorem C2_nonamortizing (P rate emi : ℚ) (lumps : List (Nat × ℚ)) :
    (0 < P → emi < P * (rate / 12 / 100) →
      simulate_loan P rate (some emi) lumps none = .error .nonAmortizing) ∧
    (∀ (emi? : Option ℚ) (target? : Option Nat) (es : List RawEntry),
      simulate_loan P rate emi? lumps target? = .ok es →
      ∀ e ∈ es, e.interest ≤ e.emi) := by
  constructor
  · intro hP he
    rw [simulate_loan.eq_def]
    dsimp only
    rw [simLoop_nonAmortizing (by norm_num [MAX_MONTHS]) hP he]
  · intro emi? target? es hok e hee
    obtain ⟨e0, hrun, -, -⟩ := simulate_loan_ok_inv hok
    obtain ⟨-, -, hmem, -⟩ := simLoop_ok_facts _ _ _ _ _ _ _ hrun
    exact (hmem e hee).2.1

/-- C3 (amended): the 1200-month ceiling does not abort with an error — no
such error kind exists in the code.  Every successful schedule has at most
1200 rows, and inputs that cannot amortize within the ceiling (for example any
zero-rate loan with `1200 * emi < loan_amount`) return a truncated 1200-row
schedule, every month of which still carries a positive balance. -/
theorem C3_ceiling_truncates (P e : ℚ) :
    (∀ (rate : ℚ) (emi? : Option ℚ) (lumps : List (Nat × ℚ)) (target? : Option Nat)
      (es : List RawEntry), simulate_loan P rate emi? lumps target? = .ok es →
      es.length ≤ MAX_MONTHS) ∧
    (0 < e → (MAX_MONTHS : ℚ) * e < P →
      ∃ es, simulate_loan P 0 (some e) [] none = .ok es ∧ es.length = MAX_MONTHS ∧
        ∀ ent ∈ es, 0 < ent.balance) := by
  constructor
  · intro rate emi? lumps target? es hok
    obtain ⟨e0, hrun, -, -⟩ := simulate_loan_ok_inv hok
    obtain ⟨-, -, -, -, -, hlen, -⟩ := simLoop_ok_facts _ _ _ _ _ _ _ hrun
    exact hlen
  · intro he hPe
    refine ⟨_, zeroRate_truncated_run P e he hPe, by simp, ?_⟩
    intro ent hent
    obtain ⟨k, hk, hek⟩ := List.mem_map.1 hent
    have hk' : k < MAX_MONTHS := List.mem_range.1 hk
    rw [← hek]
    simp only
    have hke : ((k:ℚ) + 1) * e ≤ (MAX_MONTHS : ℚ) * e := by
      have : ((k:ℚ) + 1) ≤ (MAX_MONTHS : ℚ) := by
        have := Nat.succ_le_of_lt hk'
        exact_mod_cast this
      exact mul_le_mul_of_nonneg_right this (le_of_lt he)
    linarith

/-- C4 (amended): every successful schedule has consecutive month indices
starting at 1, satisfies the balance recurrence
`remaining(month) = remaining(month-1) - principal_paid(month)` with
`remaining(0) = loan_amount` and `interest(month) = remaining(month-1) * r`,
never reports a negative balance, keeps a positive balance on every month
before the last, and ends with balance exactly 0 whenever it stops before the
1200-month ceiling (at the ceiling it may end with a positive balance). -/
theorem C4_schedule_invariants (P rate : ℚ) (emi? : Option ℚ)
    (lumps : List (Nat × ℚ)) (target? : Option Nat) (es : List RawEntry)
    (hok : simulate_loan P rate emi? lumps target? = .ok es) :
    monthsFrom 1 es ∧ entryChain (rate / 12 / 100) P es ∧
    (∀ ent ∈ es, 0 ≤ ent.balance) ∧
    (∀ es₁ ent es₂, es = es₁ ++ ent :: es₂ → es₂ ≠ [] → 0 < ent.balance) ∧
    (es.length < MAX_MONTHS → lastBalance P es = 0) := by
  obtain ⟨e0, hrun, hne, -⟩ := simulate_loan_ok_inv hok
  obtain ⟨hchain, hmonths, hmem, hsplit, hlast, -, -⟩ :=
    simLoop_ok_facts _ _ _ _ _ _ _ hrun
  exact ⟨hmonths, hchain, fun ent hent => (hmem ent hent).1, hsplit,
    fun hlt => hlast hlt hne⟩

/-- C7: in any successful fixed-EMI simulation, if at some month the scheduled
principal (`emi` minus that month's interest) plus that month's lump sum
exceeds the balance before the month, then that month is the schedule's final
month, the payment exactly zeroes the balance (principal reduced to
`balance - lump_sum`, or to 0 with the lump sum capped at the balance when that
is negative), that month's reported EMI equals `interest + principal`, and all
earlier entries report the scheduled EMI unchanged. -/
theorem C7_final_month_clamp (P rate emi : ℚ) (lumps : List (Nat × ℚ))
    (target? : Option Nat) (es₁ : List RawEntry) (e : RawEntry) (es₂ : List RawEntry)
    (hok : simulate_loan P rate (some emi) lumps target? = .ok (es₁ ++ e :: es₂))
    (hcond : (emi - lastBalance P es₁ * (rate / 12 / 100)) +
      lumpGet lumps (es₁.length + 1) > lastBalance P es₁) :
    es₂ = [] ∧ e.balance = 0 ∧ e.emi = e.interest + e.principal ∧
    e.interest = lastBalance P es₁ * (rate / 12 / 100) ∧
    e.principal = (if lastBalance P es₁ - lumpGet lumps (es₁.length + 1) < 0 then 0
      else lastBalance P es₁ - lumpGet lumps (es₁.length + 1)) ∧
    e.lumpSum = (if lastBalance P es₁ - lumpGet lumps (es₁.length + 1) < 0
      then lastBalance P es₁ else lumpGet lumps (es₁.length + 1)) ∧
    (∀ e' ∈ es₁, e'.emi = emi) := by
  obtain ⟨e0, hrun, -, hcases⟩ := simulate_loan_ok_inv hok
  have he0 : e0 = emi := by
    rcases hcases with h | ⟨h, -⟩
    · injection h with h
      exact h.symm
    · exact absurd h (by simp)
  subst he0
  have harg : (0 : Nat) + es₁.length + 1 = es₁.length + 1 := by omega
  have := simLoop_clamp_final MAX_MONTHS e0 P 0 es₁ e es₂ hrun (by rw [harg]; exact hcond)
  rw [harg] at this
  exact this

/-- C8: with only `target_months = n` supplied, the EMI is back-solved by
`calculate_emi` — `P*r*(1+r)^n / ((1+r)^n - 1)` at monthly rate
`r = rate/12/100`, and `P/n` when `r = 0` — the simulation is exactly the
fixed-EMI simulation at that EMI, it succeeds, and the schedule has at most `n`
rows. -/
theorem C8_target_months (P rate : ℚ) (n : Nat) (lumps : List (Nat × ℚ))
    (hP : 0 < P) (hrate : 0 ≤ rate) (hn : 0 < n) (hl : ∀ p ∈ lumps, 0 ≤ p.2) :
    simulate_loan P rate none lumps (some n) =
      simulate_loan P rate (some (calculate_emi P (rate / 12 / 100) n)) lumps none ∧
    calculate_emi P (rate / 12 / 100) n =
      (if rate / 12 / 100 = 0 then P / n
       else P * (rate / 12 / 100) * (1 + rate / 12 / 100) ^ n /
         ((1 + rate / 12 / 100) ^ n - 1)) ∧
    ∃ es, simulate_loan P rate none lumps (some n) = .ok es ∧ es.length ≤ n := by
  have hr : 0 ≤ rate / 12 / 100 := by positivity
  have hemi := @calculate_emi_gt P (rate / 12 / 100) n hP hr hn
  have hcn : annuitySeq P (calculate_emi P (rate / 12 / 100) n) (rate / 12 / 100) n = 0 := by
    by_cases hz : rate / 12 / 100 = 0
    · have hclosed : ∀ k, annuitySeq P (calculate_emi P (rate / 12 / 100) n)
          (rate / 12 / 100) k = P - k * (P / n) := by
        intro k
        induction k with
        | zero => simp [annuitySeq]
        | succ m ih =>
          rw [annuitySeq, ih, hz, calculate_emi]
          norm_num
          push_cast
          ring
      rw [hclosed n]
      have hn' : (n : ℚ) ≠ 0 := by
        exact_mod_cast Nat.pos_iff_ne_zero.1 hn
      field_simp
    · exact annuitySeq_emi_zero (lt_of_le_of_ne hr (Ne.symm hz)) (by omega)
  obtain ⟨es, hok, hlen⟩ := simLoop_target hr hl hemi
    (annuitySeq P (calculate_emi P (rate / 12 / 100) n) (rate / 12 / 100))
    (fun k => rfl) hcn MAX_MONTHS 0 P 0 (by omega) (le_of_lt hP) le_rfl
    (le_of_eq rfl)
  obtain ⟨-, -, -, -, -, -, hne⟩ := simLoop_ok_facts _ _ _ _ _ _ _ hok
  have hne' := hne hP (by norm_num [MAX_MONTHS])
  refine ⟨rfl, rfl, es, simulate_loan_target_intro hok hne', by simpa using hlen⟩

/-- C9 (amended): the engine's returned rows render every field except `Month`
as an `INR` currency string (grouped thousands, `₹` sign; the `Lump Sum` cell
is the empty string when no lump sum was paid), each computed from the
corresponding exact value of that month. -/
theorem C9_rows_are_formatted (P rate : ℚ) (emi? : Option ℚ)
    (lumps : List (Nat × ℚ)) (target? : Option Nat) (es : List RawEntry)
    (hok : simulate_loan P rate emi? lumps target? = .ok es) :
    simulate_loan_rows P rate emi? lumps target? = .ok (es.map toRow) ∧
    ∀ e ∈ es, (toRow e).month = e.month ∧ (toRow e).emi = INR e.emi ∧
      (toRow e).lumpSum = (if e.lumpSum ≠ 0 then INR e.lumpSum else "") ∧
      (toRow e).interest = INR e.interest ∧
      (toRow e).principal = INR (e.principal + e.lumpSum) ∧
      (toRow e).balance = INR e.balance := by
  constructor
  · rw [simulate_loan_rows, hok]
    rfl
  · intro e _
    exact ⟨rfl, rfl, rfl, rfl, rfl, rfl⟩


theorem run_clamp_example : simulate_loan 1000 0 (some 600) [] none =
    .ok [{ month := 1, emi := 600, lumpSum := 0, interest := 0, principal := 600,
           balance := 400 },
         { month := 2, emi := 400, lumpSum := 0, interest := 0, principal := 400,
           balance := 0 }] := by
  refine simulate_loan_ok_intro ?_ (by simp)
  have hr0 : (0:ℚ) / 12 / 100 = 0 := by norm_num
  have h2 : simLoop 0 [] 1199 600 400 1 =
      .ok [{ month := 2, emi := 400, lumpSum := 0, interest := 0, principal := 400,
             balance := 0 }] := by
    rw [show (1199:Nat) = 1198 + 1 from rfl, simLoop_succ]
    norm_num [clampPayment, show lumpGet [] 2 = 0 from rfl]
  rw [hr0, MAX_MONTHS, show (1200:Nat) = 1199 + 1 from rfl, simLoop_succ]
  norm_num [clampPayment, show lumpGet [] 1 = 0 from rfl, h2]

theorem run_lump_example : simulate_loan 1000 0 (some 600) [(1, 100)] none =
    .ok [{ month := 1, emi := 600, lumpSum := 100, interest := 0, principal := 600,
           balance := 300 },
         { month := 2, emi := 300, lumpSum := 0, interest := 0, principal := 300,
           balance := 0 }] := by
  refine simulate_loan_ok_intro ?_ (by simp)
  have hr0 : (0:ℚ) / 12 / 100 = 0 := by norm_num
  have h2 : simLoop 0 [(1, 100)] 1199 600 300 1 =
      .ok [{ month := 2, emi := 300, lumpSum := 0, interest := 0, principal := 300,
             balance := 0 }] := by
    rw [show (1199:Nat) = 1198 + 1 from rfl, simLoop_succ]
    norm_num [clampPayment, show lumpGet [(1, 100)] 2 = 0 from rfl]
  rw [hr0, MAX_MONTHS, show (1200:Nat) = 1199 + 1 from rfl, simLoop_succ]
  norm_num [clampPayment, show lumpGet [(1, 100)] 1 = 100 from rfl, h2]

theorem run_payoff_one : simulate_loan 1000 0 (some 1000) [] none =
    .ok [{ month := 1, emi := 1000, lumpSum := 0, interest := 0, principal := 1000,
           balance := 0 }] := by
  refine simulate_loan_ok_intro ?_ (by simp)
  have hr0 : (0:ℚ) / 12 / 100 = 0 := by norm_num
  rw [hr0, MAX_MONTHS, show (1200:Nat) = 1199 + 1 from rfl, simLoop_succ]
  norm_num [clampPayment, show lumpGet [] 1 = 0 from rfl]

theorem pyRound_natCast (n : ℕ) : pyRound (n : ℚ) = n := by
  rw [pyRound]
  rw [Int.floor_natCast]
  norm_num

theorem INR_1000 : INR 1000 = "₹1,000" := by
  have h : (1000 : ℚ) = ((1000 : ℕ) : ℚ) := by norm_num
  rw [INR, h, pyRound_natCast]
  rfl

theorem INR_0 : INR 0 = "₹0" := by
  have h : (0 : ℚ) = ((0 : ℕ) : ℚ) := by norm_num
  rw [INR, h, pyRound_natCast]
  rfl

/-- A month whose EMI exactly equals its interest leaves the balance unchanged
forever: the loop runs to the fuel limit repeating the same state. -/
theorem simLoop_constant : ∀ (fuel : Nat) (r b : ℚ) (m : Nat), 0 < b →
    simLoop r [] fuel (b * r) b m =
      .ok ((List.range fuel).map (fun k => ⟨m + k + 1, b * r, 0, b * r, 0, b⟩)) := by
  intro fuel
  induction fuel with
  | zero => intro r b m _; simp [simLoop]
  | succ n ih =>
    intro r b m hb
    rw [simLoop_succ, if_neg (by linarith), if_neg (by simp)]
    dsimp only
    have hl0 : lumpGet [] (m + 1) = 0 := rfl
    have hcl : ¬ (b * r - b * r + lumpGet [] (m + 1) > b) := by
      rw [hl0]
      simp
      linarith
    rw [show clampPayment (b * r - b * r) (lumpGet [] (m + 1)) b (b * r) (b * r) =
      (b * r - b * r, lumpGet [] (m + 1), b * r) from
      (clampPayment_facts (b * r - b * r) (lumpGet [] (m + 1)) b (b * r) (b * r)).2.1 hcl]
    simp only [hl0]
    rw [if_neg (by simp; linarith)]
    have hb' : b - (b * r - b * r + 0) = b := by ring
    rw [hb', ih r b (m + 1) hb]
    simp only [List.range_succ_eq_map, List.map_cons, List.map_map]
    rw [if_pos hb]
    simp only [Except.ok.injEq, List.cons.injEq, RawEntry.mk.injEq]
    constructor
    · and_intros <;> first | trivial | omega | (push_cast; ring)
    · refine List.map_congr_left ?_
      intro k _
      simp only [Function.comp, RawEntry.mk.injEq]
      and_intros <;> first | trivial | omega | (push_cast; ring)

/-- C1 (counterexample): the claim fails as stated on two counts.  With a lump
sum (loan 1000, rate 0, EMI 600, lump sum 100 in month 1) all hypotheses hold
and the loan pays off, but the sum of the reported principal paid plus the sum
of the lump sums is 1100, not the loan amount — the reported principal already
includes the lump sums.  And with the EMI exactly equal to the first month's
interest (loan 1000, rate 12%, EMI 10 = interest) the balance never falls, the
1200-month ceiling is hit, and no entry — in particular not the final one —
has remaining balance 0. -/
theorem C1_counterexample :
    ((0:ℚ) < 1000 ∧ (0:ℚ) ≤ 0 ∧ (0:ℚ) < 600 ∧ 1000 * ((0:ℚ) / 12 / 100) ≤ 600 ∧
      (∃ es, simulate_loan 1000 0 (some 600) [(1, 100)] none = .ok es ∧
        lastBalance 1000 es = 0 ∧
        sumPrincipalPaid es + sumLumpSums es ≠ 1000)) ∧
    ((0:ℚ) < 1000 ∧ (0:ℚ) ≤ 12 ∧ (0:ℚ) < 10 ∧ 1000 * ((12:ℚ) / 12 / 100) ≤ 10 ∧
      (∃ es, simulate_loan 1000 12 (some 10) [] none = .ok es ∧ es ≠ [] ∧
        ∀ ent ∈ es, ent.balance = 1000)) := by
  constructor
  · refine ⟨by norm_num, le_rfl, by norm_num, by norm_num, ?_⟩
    refine ⟨_, run_lump_example, rfl, ?_⟩
    norm_num [sumPrincipalPaid, sumLumpSums]
  · refine ⟨by norm_num, by norm_num, by norm_num, by norm_num, ?_⟩
    have hconst := simLoop_constant MAX_MONTHS (1/100) 1000 0 (by norm_num)
    rw [show (1000:ℚ) * (1/100) = 10 from by norm_num] at hconst
    have hrun : simLoop ((12:ℚ) / 12 / 100) [] MAX_MONTHS 10 1000 0 =
        .ok ((List.range MAX_MONTHS).map
          (fun k => ⟨0 + k + 1, 10, 0, 10, 0, 1000⟩)) := by
      rw [show (12:ℚ) / 12 / 100 = 1/100 from by norm_num]
      rw [hconst]
    refine ⟨_, simulate_loan_ok_intro hrun (by simp [MAX_MONTHS]), by simp [MAX_MONTHS], ?_⟩
    intro ent hent
    obtain ⟨k, -, hek⟩ := List.mem_map.1 hent
    rw [← hek]

/-- C1 (witness): the amended statement at loan 1000, rate 0, EMI 1000, no
lump sums. -/
theorem C1_payoff_witness :
    ((0:ℚ) < 1000 ∧ (0:ℚ) ≤ 0 ∧ (0:ℚ) < 1000 ∧ 1000 * ((0:ℚ) / 12 / 100) ≤ 1000 ∧
      (∀ p ∈ ([] : List (Nat × ℚ)), 0 ≤ p.2)) ∧
    (∃ es, simulate_loan 1000 0 (some 1000) [] none = .ok es ∧ es ≠ [] ∧
      sumPrincipalPaid es = 1000 - lastBalance 1000 es ∧
      (∀ ent ∈ es, 0 ≤ ent.balance) ∧ 0 ≤ lastBalance 1000 es ∧
      (es.length < MAX_MONTHS → lastBalance 1000 es = 0)) :=
  ⟨⟨by norm_num, le_rfl, by norm_num, by norm_num, by simp⟩,
    C1_payoff_and_principal_sum 1000 0 1000 [] (by norm_num) le_rfl (by norm_num)
      (by norm_num) (by simp)⟩

/-- C2 (witness): `simulate(1_000_000, 12, emi=1000)` fails with the
non-amortizing error (first-month interest 10 000 exceeds the EMI), and the
concrete successful run at loan 1000, rate 0, EMI 1000 has interest within EMI
on every row. -/
theorem C2_nonamortizing_witness :
    ((0:ℚ) < 1000000 ∧ (1000:ℚ) < 1000000 * ((12:ℚ) / 12 / 100)) ∧
    simulate_loan 1000000 12 (some 1000) [] none = .error .nonAmortizing ∧
    (∀ e ∈ [({ month := 1, emi := 1000, lumpSum := 0, interest := 0, principal := 1000,
                 balance := 0 } : RawEntry)], e.interest ≤ e.emi) :=
  ⟨⟨by norm_num, by norm_num⟩,
    (C2_nonamortizing 1000000 12 1000 []).1 (by norm_num) (by norm_num),
    (C2_nonamortizing 1000 0 1000 []).2 (some 1000) none _ run_payoff_one⟩

/-- C3 (counterexample): `simulate(10000, 0, emi=1)` reaches the 1200-month
ceiling with a positive balance on every month, and returns the truncated
1200-row schedule successfully — it does not abort with an error (no
`RuntimeExceeded` kind exists in the code). -/
theorem C3_counterexample :
    ∃ es, simulate_loan 10000 0 (some 1) [] none = .ok es ∧
      es.length = MAX_MONTHS ∧ ∀ ent ∈ es, 0 < ent.balance := by
  refine ⟨_, zeroRate_truncated_run 10000 1 (by norm_num) (by norm_num [MAX_MONTHS]),
    by simp, ?_⟩
  intro ent hent
  obtain ⟨k, hk, hek⟩ := List.mem_map.1 hent
  have hk' : k < MAX_MONTHS := List.mem_range.1 hk
  rw [← hek]
  simp only
  have hke : ((k:ℚ) + 1) ≤ (MAX_MONTHS : ℚ) := by
    exact_mod_cast Nat.succ_le_of_lt hk'
  have : ((k:ℚ) + 1) * 1 ≤ (MAX_MONTHS : ℚ) * 1 := by
    exact mul_le_mul_of_nonneg_right hke (by norm_num)
  norm_num [MAX_MONTHS] at this ⊢
  linarith

/-- C3 (witness): the amended statement at loan 10000, rate 0, EMI 1. -/
theorem C3_ceiling_witness :
    ((0:ℚ) < 1 ∧ (MAX_MONTHS : ℚ) * 1 < 10000) ∧
    (∃ es, simulate_loan 10000 0 (some 1) [] none = .ok es ∧
      es.length = MAX_MONTHS ∧ ∀ ent ∈ es, 0 < ent.balance) :=
  ⟨⟨by norm_num, by norm_num [MAX_MONTHS]⟩,
    (C3_ceiling_truncates 10000 1).2 (by norm_num) (by norm_num [MAX_MONTHS])⟩

/-- C4 (counterexample): at loan 10000, rate 0, EMI 1 the returned schedule
ends (after 1200 rows) although no month's balance ever reaches zero or below,
so a successful schedule need not end at a month whose balance reaches zero. -/
theorem C4_counterexample :
    ∃ es, simulate_loan 10000 0 (some 1) [] none = .ok es ∧ es ≠ [] ∧
      ∀ ent ∈ es, 0 < ent.balance := by
  refine ⟨_, zeroRate_truncated_run 10000 1 (by norm_num) (by norm_num [MAX_MONTHS]),
    by simp [MAX_MONTHS], ?_⟩
  intro ent hent
  obtain ⟨k, hk, hek⟩ := List.mem_map.1 hent
  have hk' : k < MAX_MONTHS := List.mem_range.1 hk
  rw [← hek]
  simp only
  have hke : ((k:ℚ) + 1) ≤ (MAX_MONTHS : ℚ) := by
    exact_mod_cast Nat.succ_le_of_lt hk'
  have : ((k:ℚ) + 1) * 1 ≤ (MAX_MONTHS : ℚ) * 1 := by
    exact mul_le_mul_of_nonneg_right hke (by norm_num)
  norm_num [MAX_MONTHS] at this ⊢
  linarith

/-- C4 (witness): the amended invariants at the one-month payoff run. -/
theorem C4_schedule_witness :
    ∃ es, simulate_loan 1000 0 (some 1000) [] none = .ok es ∧
      (monthsFrom 1 es ∧ entryChain ((0:ℚ) / 12 / 100) 1000 es ∧
        (∀ ent ∈ es, 0 ≤ ent.balance) ∧
        (∀ es₁ ent es₂, es = es₁ ++ ent :: es₂ → es₂ ≠ [] → 0 < ent.balance) ∧
        (es.length < MAX_MONTHS → lastBalance 1000 es = 0)) :=
  ⟨_, run_payoff_one,
    C4_schedule_invariants 1000 0 (some 1000) [] none _ run_payoff_one⟩

/-- C7 (witness): loan 1000, rate 0, EMI 600.  In month 2 the scheduled
principal 600 exceeds the remaining balance 400, so month 2 is final, pays
exactly 400, reports EMI 400 = interest + principal, and month 1 still reports
the scheduled EMI 600. -/
theorem C7_clamp_witness :
    ∃ es₁ e es₂, simulate_loan 1000 0 (some 600) [] none = .ok (es₁ ++ e :: es₂) ∧
      (600 - lastBalance 1000 es₁ * ((0:ℚ) / 12 / 100)) +
        lumpGet [] (es₁.length + 1) > lastBalance 1000 es₁ ∧
      es₂ = [] ∧ e.balance = 0 ∧ e.emi = e.interest + e.principal ∧
      (∀ e' ∈ es₁, e'.emi = 600) := by
  refine ⟨[{ month := 1, emi := 600, lumpSum := 0, interest := 0, principal := 600,
             balance := 400 }],
    { month := 2, emi := 400, lumpSum := 0, interest := 0, principal := 400,
      balance := 0 }, [], ?_, ?_, ?_⟩
  · exact run_clamp_example
  · show (600 - (400:ℚ) * ((0:ℚ) / 12 / 100)) + lumpGet [] (1 + 1) > (400:ℚ)
    norm_num [lumpGet, List.lookup]
  · have h := C7_final_month_clamp 1000 0 600 [] none
      [{ month := 1, emi := 600, lumpSum := 0, interest := 0, principal := 600,
          balance := 400 }]
      { month := 2, emi := 400, lumpSum := 0, interest := 0, principal := 400,
         balance := 0 } [] run_clamp_example
      (by show (600 - (400:ℚ) * ((0:ℚ) / 12 / 100)) + lumpGet [] (1 + 1) > (400:ℚ)
          norm_num [lumpGet, List.lookup])
    exact ⟨h.1, h.2.1, h.2.2.1, h.2.2.2.2.2.2⟩

/-- C8 (witness): loan 1200 at rate 0 with `target_months = 12` back-solves
EMI 100 and finishes in at most 12 months. -/
theorem C8_target_witness :
    ((0:ℚ) < 1200 ∧ (0:ℚ) ≤ 0 ∧ 0 < 12 ∧ (∀ p ∈ ([] : List (Nat × ℚ)), 0 ≤ p.2)) ∧
    (simulate_loan 1200 0 none [] (some 12) =
      simulate_loan 1200 0 (some (calculate_emi 1200 ((0:ℚ) / 12 / 100) 12)) [] none ∧
    calculate_emi 1200 ((0:ℚ) / 12 / 100) 12 =
      (if (0:ℚ) / 12 / 100 = 0 then 1200 / (12:ℚ)
       else 1200 * ((0:ℚ) / 12 / 100) * (1 + (0:ℚ) / 12 / 100) ^ 12 /
         ((1 + (0:ℚ) / 12 / 100) ^ 12 - 1)) ∧
    ∃ es, simulate_loan 1200 0 none [] (some 12) = .ok es ∧ es.length ≤ 12) :=
  ⟨⟨by norm_num, le_rfl, by norm_num, by simp⟩,
    C8_target_months 1200 0 12 [] (by norm_num) le_rfl (by norm_num) (by simp)⟩

/-- C9 (counterexample): the returned rows are not raw numeric values: at loan
1000, rate 0, EMI 1000 the single returned row renders every monetary field as
an `INR` currency string — the EMI cell is the grouped-thousands string
"₹1,000", not the number 1000. -/
theorem C9_counterexample :
    simulate_loan_rows 1000 0 (some 1000) [] none =
      .ok [{ month := 1, emi := "₹1,000", lumpSum := "", interest := "₹0",
             principal := "₹1,000", balance := "₹0" }] ∧
    "₹1,000" ≠ "1000" := by
  constructor
  · rw [simulate_loan_rows, run_payoff_one]
    simp only [Except.map, List.map_cons, List.map_nil]
    congr 1
    simp [toRow, INR_1000, INR_0]
  · decide

/-- C9 (witness): the amended statement at the one-month payoff run. -/
theorem C9_rows_witness :
    ∃ es, simulate_loan 1000 0 (some 1000) [] none = .ok es ∧
      simulate_loan_rows 1000 0 (some 1000) [] none = .ok (es.map toRow) ∧
      ∀ e ∈ es, (toRow e).month = e.month ∧ (toRow e).emi = INR e.emi ∧
        (toRow e).lumpSum = (if e.lumpSum ≠ 0 then INR e.lumpSum else "") ∧
        (toRow e).interest = INR e.interest ∧
        (toRow e).principal = INR (e.principal + e.lumpSum) ∧
        (toRow e).balance = INR e.balance :=
  ⟨_, run_payoff_one,
    (C9_rows_are_formatted 1000 0 (some 1000) [] none _ run_payoff_one).1,
    (C9_rows_are_formatted 1000 0 (some 1000) [] none _ run_payoff_one).2⟩

end LoanEmiCalculator
